import Mathlib

/-!
Verification of the clawdbot gateway core against its specification.

Each TypeScript function named below is shallowly embedded as an executable
Lean definition, translated clause by clause from the source:

* `computeNextRunAtMs`, `normalizeCronJobInput`, `normalizeCronJobCreate`,
  `normalizeCronJobPatch` — packages/clawd-core/src/cron/schedule.ts
* `parseModelRef`, `modelKey`, `buildModelAliasIndex`, `resolveModelRef`,
  `buildAllowedModelKeys`, `resolveFallbackCandidates`, `runWithModelFallback`,
  `isAbortError` — packages/clawd-core/src/agents/memory.ts
* `processHeartbeatResponse` — packages/clawd-core/src/agents/sessions.ts
* `extractThinkDirective`, `extractVerboseDirective`, `extractAllDirectives`,
  `normalizeThinkLevel`, `normalizeVerboseLevel` —
  packages/clawd-core/src/agents/directives.ts
* `resolveClawdMetadata`, `shouldIncludeSkill`, `normalizeStringList` —
  packages/clawd-core/src/agents/skills.ts
* `saveSessionStore` / `saveCronStore` — modelled as filesystem-operation
  traces (agents/sessions.ts and the cron store module)
* `buildPairingReply` — pairing/pairing-messages.ts

JavaScript strings are modelled as Lean `String` / `List Char`; JavaScript
numbers appearing in the schedules are integral millisecond values and are
modelled as `Int`; dynamic (`unknown`) values are modelled by the `JsValue`
type below.  Ambient process state (PATH lookups, environment variables,
the platform string) is passed explicitly as function arguments.
-/

/-! ## JavaScript string primitives -/

/-- The whitespace class used by JavaScript `trim`, `\s` and friends. -/
def jsWhitespaceChar (c : Char) : Bool :=
  c = ' ' || c = '\t' || c = '\n' || c = '\r' ||
  c = Char.ofNat 11 || c = Char.ofNat 12 ||
  c = Char.ofNat 0x00a0 || c = Char.ofNat 0x1680 ||
  (Char.ofNat 0x2000 ≤ c && c ≤ Char.ofNat 0x200a) ||
  c = Char.ofNat 0x2028 || c = Char.ofNat 0x2029 ||
  c = Char.ofNat 0x202f || c = Char.ofNat 0x205f ||
  c = Char.ofNat 0x3000 || c = Char.ofNat 0xfeff

/-- Drop leading JavaScript whitespace (the behaviour of `trimStart`). -/
def jsTrimStartList (l : List Char) : List Char :=
  l.dropWhile jsWhitespaceChar

/-- Drop trailing JavaScript whitespace (the behaviour of `trimEnd`). -/
def jsTrimEndList (l : List Char) : List Char :=
  (l.reverse.dropWhile jsWhitespaceChar).reverse

/-- JavaScript `String.prototype.trim` on a character list. -/
def jsTrimList (l : List Char) : List Char :=
  jsTrimEndList (jsTrimStartList l)

/-- JavaScript `String.prototype.trim`. -/
def jsTrim (s : String) : String :=
  ⟨jsTrimList s.data⟩

/-- ASCII lower-casing of one character (arguments we lower-case are ASCII). -/
def toLowerAsciiChar (c : Char) : Char :=
  if 'A' ≤ c ∧ c ≤ 'Z' then Char.ofNat (c.toNat + 32) else c

/-- ASCII lower-casing (JavaScript `toLowerCase` on the ASCII range). -/
def toLowerAscii (s : String) : String :=
  ⟨s.data.map toLowerAsciiChar⟩

/-- Substring test, as in JavaScript `String.prototype.includes`. -/
def containsSub (s pat : List Char) : Bool :=
  match s with
  | [] => pat = []
  | _ :: rest => pat.isPrefixOf s || containsSub rest pat

/-- Substring test on `String`. -/
def containsSubstring (s pat : String) : Bool :=
  containsSub s.data pat.data

/-- Split on a separator character, as JavaScript `String.prototype.split`
with a single-character separator (no limit). -/
def splitListOn (sep : Char) : List Char → List (List Char)
  | [] => [[]]
  | c :: rest =>
    let r := splitListOn sep rest
    if c = sep then [] :: r
    else
      match r with
      | [] => [[c]]
      | h :: t => (c :: h) :: t

/-- Remove the first occurrence of `pat` in `s`; JavaScript
`s.replace(pat, "")` for a plain-string pattern. -/
def removeFirstOccurrence (s pat : List Char) : List Char :=
  match s with
  | [] => []
  | c :: rest =>
    if pat.isPrefixOf s then s.drop pat.length
    else c :: removeFirstOccurrence rest pat

/-- Collapse every maximal whitespace run to a single space; JavaScript
`s.replace(/\s+/g, " ")`. `inRun` records whether the previous character
belonged to a whitespace run already emitted. -/
def collapseWsAux : List Char → Bool → List Char
  | [], _ => []
  | c :: rest, inRun =>
    if jsWhitespaceChar c then
      if inRun then collapseWsAux rest true
      else ' ' :: collapseWsAux rest true
    else c :: collapseWsAux rest false

/-- JavaScript `s.replace(/\s+/g, " ")`. -/
def collapseWs (l : List Char) : List Char :=
  collapseWsAux l false

/-- JavaScript `Array.prototype.join` with a separator. -/
def jsJoin (sep : String) : List String → String
  | [] => ""
  | [x] => x
  | x :: xs => x ++ sep ++ jsJoin sep xs

/-! ## Cron schedules — packages/clawd-core/src/cron/schedule.ts

`CronSchedule` is the variant type from cron/types.ts.  Millisecond
timestamps are integral, so `Math.floor` on them is the identity and they
are modelled as `Int`. -/

inductive CronSchedule where
  | at (atMs : Int)
  | every (everyMs : Int) (anchorMs : Option Int)
  | cron (expr : String) (tz : Option String)

/-- `computeNextRunAtMs` from cron/schedule.ts.

The `cron` branch calls the external `croner` library
(`new Cron(expr, {timezone, catch:false}).nextRun(new Date(nowMs))`), which
is a third-party dependency outside this repository; it is abstracted as
the explicit argument `cronEval expr tz nowMs`.  The other two branches are
translated literally. -/
def computeNextRunAtMs (cronEval : String → Option String → Int → Option Int)
    (schedule : CronSchedule) (nowMs : Int) : Option Int :=
  match schedule with
  | .at atMs => if atMs > nowMs then some atMs else none
  | .every everyMs0 anchorMs0 =>
    let everyMs := max 1 everyMs0
    let anchor := max 0 (anchorMs0.getD nowMs)
    if nowMs < anchor then some anchor
    else
      let elapsed := nowMs - anchor
      let steps := max 1 ((elapsed + everyMs - 1) / everyMs)
      some (anchor + steps * everyMs)
  | .cron expr0 tz =>
    let expr := jsTrim expr0
    if expr = "" then none
    else
      let tzOpt := match tz with
        | some t => if jsTrim t = "" then none else some (jsTrim t)
        | none => none
      cronEval expr tzOpt nowMs

/-! ## Cron job normalization — cron/schedule.ts (normalize section)

The normalizer works on dynamic JavaScript values (`unknown`), modelled by
`JsValue`.  Objects are association lists in insertion order; the inputs of
interest (produced by `JSON.parse` or object literals) have no duplicate
keys, and `alistSet` updates the first binding in place exactly as JS
property assignment does. -/

inductive JsValue where
  | str (s : String)
  | num (n : Int)
  | bool (b : Bool)
  | null
  | arr (elems : List JsValue)
  | obj (fields : List (String × JsValue))

/-- Property read (first binding). -/
def alistGet {α : Type} : List (String × α) → String → Option α
  | [], _ => none
  | (k', v) :: rest, k => if k' = k then some v else alistGet rest k

/-- Property write: update the first binding in place, else append. -/
def alistSet {α : Type} : List (String × α) → String → α → List (String × α)
  | [], k, v => [(k, v)]
  | (k', v') :: rest, k, v =>
    if k' = k then (k, v) :: rest else (k', v') :: alistSet rest k v

/-- JavaScript truthiness of a value. -/
def jsTruthy : JsValue → Bool
  | .str s => s ≠ ""
  | .num n => n ≠ 0
  | .bool b => b
  | .null => false
  | .arr _ => true
  | .obj _ => true

/-- Truthiness of a possibly-missing value (`undefined` is falsy). -/
def jsTruthyOpt : Option JsValue → Bool
  | some v => jsTruthy v
  | none => false

/-- `isRecord` from cron/schedule.ts: a non-null, non-array object. -/
def isRecord : JsValue → Bool
  | .obj _ => true
  | _ => false

/-- `isRecord` applied to a possibly-missing property value. -/
def isRecordOpt : Option JsValue → Bool
  | some v => isRecord v
  | none => false

/-- The fields of a value known to be a record. -/
def recordFieldsOpt : Option JsValue → Option (List (String × JsValue))
  | some (.obj fields) => some fields
  | _ => none

/-- `coerceSchedule` from cron/schedule.ts: infer a missing `kind`
from which schedule field is present. -/
def coerceSchedule (schedule : List (String × JsValue)) : List (String × JsValue) :=
  if (match alistGet schedule "kind" with
      | some (.str k) => k
      | _ => "") ≠ "" then schedule
  else
    match alistGet schedule "atMs" with
    | some (.num _) => alistSet schedule "kind" (.str "at")
    | _ =>
      match alistGet schedule "everyMs" with
      | some (.num _) => alistSet schedule "kind" (.str "every")
      | _ =>
        match alistGet schedule "expr" with
        | some (.str _) => alistSet schedule "kind" (.str "cron")
        | _ => schedule

/-- `coercePayload` from cron/schedule.ts. -/
def coercePayload (payload : List (String × JsValue)) : List (String × JsValue) :=
  if (match alistGet payload "kind" with
      | some (.str k) => k
      | _ => "") ≠ "" then payload
  else
    match alistGet payload "text" with
    | some (.str _) => alistSet payload "kind" (.str "systemEvent")
    | _ =>
      match alistGet payload "message" with
      | some (.str _) => alistSet payload "kind" (.str "agentTurn")
      | _ => payload

/-- `unwrapJob` from cron/schedule.ts: unwrap a `data` or `job` envelope. -/
def unwrapJob (raw : List (String × JsValue)) : List (String × JsValue) :=
  match recordFieldsOpt (alistGet raw "data") with
  | some d => d
  | none =>
    match recordFieldsOpt (alistGet raw "job") with
    | some j => j
    | none => raw

/-- The `if (isRecord(base.schedule)) next.schedule = coerceSchedule(...)`
step of `normalizeCronJobInput`. -/
def coerceScheduleStep (b : List (String × JsValue)) : List (String × JsValue) :=
  match recordFieldsOpt (alistGet b "schedule") with
  | some s => alistSet b "schedule" (.obj (coerceSchedule s))
  | none => b

/-- The corresponding `payload` step. -/
def coercePayloadStep (b : List (String × JsValue)) : List (String × JsValue) :=
  match recordFieldsOpt (alistGet b "payload") with
  | some p => alistSet b "payload" (.obj (coercePayload p))
  | none => b

/-- The `if (!next.wakeMode) next.wakeMode = "next-heartbeat"` default. -/
def wakeModeStep (b : List (String × JsValue)) : List (String × JsValue) :=
  if jsTruthyOpt (alistGet b "wakeMode") then b
  else alistSet b "wakeMode" (.str "next-heartbeat")

/-- The `sessionTarget` default: inferred from the payload kind when the
field is falsy. -/
def sessionTargetStep (b : List (String × JsValue)) : List (String × JsValue) :=
  if jsTruthyOpt (alistGet b "sessionTarget") then b
  else
    match recordFieldsOpt (alistGet b "payload") with
    | some p =>
      let kind := match alistGet p "kind" with
        | some (.str k) => k
        | _ => ""
      let next4 := if kind = "systemEvent"
        then alistSet b "sessionTarget" (.str "main") else b
      if kind = "agentTurn"
        then alistSet next4 "sessionTarget" (.str "isolated") else next4
    | none => b

/-- The body of `normalizeCronJobInput` once the input is known to be a
record: unwrap the envelope, coerce `schedule` and `payload` kinds, and
apply creation defaults when requested. -/
def normalizeCronJobFields (fields : List (String × JsValue))
    (applyDefaults : Bool) : List (String × JsValue) :=
  let next2 := coercePayloadStep (coerceScheduleStep (unwrapJob fields))
  if applyDefaults then sessionTargetStep (wakeModeStep next2) else next2

/-- `normalizeCronJobInput` from cron/schedule.ts; `none` models the
`null` return on non-record input.  `applyDefaults` is the effective
truthiness of `options.applyDefaults` (default `false`). -/
def normalizeCronJobInput (raw : JsValue) (applyDefaults : Bool) :
    Option (List (String × JsValue)) :=
  match raw with
  | .obj fields => some (normalizeCronJobFields fields applyDefaults)
  | _ => none

/-- `NormalizeOptions`: `applyDefaults` may itself be omitted. -/
structure NormalizeOptions where
  applyDefaults : Option Bool

/-- `normalizeCronJobInput` called with an options object, reading
`options.applyDefaults` truthily as the source does. -/
def normalizeCronJobInputOpts (raw : JsValue) (options : NormalizeOptions) :
    Option (List (String × JsValue)) :=
  normalizeCronJobInput raw (options.applyDefaults.getD false)

/-- `normalizeCronJobCreate`: spreads the caller's options over
`{applyDefaults: true}`, so a caller-provided `applyDefaults` wins. -/
def normalizeCronJobCreate (raw : JsValue) (options : Option NormalizeOptions) :
    Option (List (String × JsValue)) :=
  normalizeCronJobInputOpts raw
    ⟨some (match options with
           | some o => o.applyDefaults.getD true
           | none => true)⟩

/-- `normalizeCronJobPatch`: spreads the caller's options over
`{applyDefaults: false}`. -/
def normalizeCronJobPatch (raw : JsValue) (options : Option NormalizeOptions) :
    Option (List (String × JsValue)) :=
  normalizeCronJobInputOpts raw
    ⟨some (match options with
           | some o => o.applyDefaults.getD false
           | none => false)⟩

/-! ## Model fallback — packages/clawd-core/src/agents/memory.ts

Errors thrown by the model backend are modelled as `JsError` records with a
`name` and a `message`; the `run` callback is modelled as a pure function
returning `Except JsError T`.  The `onError` notification callback has no
observable effect on the returned value and is omitted. -/

structure JsError where
  name : String
  message : String

structure ModelCandidate where
  provider : String
  model : String

structure FallbackAttempt where
  provider : String
  model : String
  error : String

def DEFAULT_PROVIDER : String := "anthropic"

def DEFAULT_MODEL : String := "claude-sonnet-4-20250514"

/-- `isAbortError` from memory.ts: name `AbortError`, or a message whose
lower-casing contains `"aborted"`. -/
def isAbortError (err : JsError) : Bool :=
  err.name = "AbortError" || containsSubstring (toLowerAscii err.message) "aborted"

/-- `modelKey` from memory.ts. -/
def modelKey (provider model : String) : String :=
  provider ++ "/" ++ model

/-- `parseModelRef` from memory.ts.  `trimmed.split("/", 2)` keeps the
first two segments; both must be non-empty or the whole trimmed string is
used as the model under the default provider. -/
def parseModelRef (raw : String) (defaultProvider : String) : Option ModelCandidate :=
  let trimmed := jsTrim raw
  if trimmed = "" then none
  else
    let viaSlash : Option ModelCandidate :=
      if containsSubstring trimmed "/" then
        match splitListOn '/' trimmed.data with
        | p :: m :: _ =>
          if p ≠ [] ∧ m ≠ [] then some ⟨jsTrim ⟨p⟩, jsTrim ⟨m⟩⟩ else none
        | _ => none
      else none
    match viaSlash with
    | some c => some c
    | none => some ⟨defaultProvider, trimmed⟩

/-- `agent.models.<key>` config entries; `aliasStr` embeds the `alias`
field (renamed because `alias` is a Lean keyword). -/
structure ModelAliasEntry where
  aliasStr : Option String

/-- `agent.model` may be a plain `"provider/model"` string or an object with
optional `provider`, `model` and `fallbacks`. -/
structure AgentModelObj where
  provider : Option String
  model : Option String
  fallbacks : Option (List String)

inductive AgentModelCfg where
  | str (s : String)
  | obj (o : AgentModelObj)

structure AgentCfg where
  model : Option AgentModelCfg
  models : Option (List (String × ModelAliasEntry))

structure SkillConfig where
  enabled : Option Bool
  apiKey : Option String
  env : Option (List (String × String))

structure SkillsCfg where
  entries : Option (List (String × SkillConfig))

structure ClawdConfig where
  agent : Option AgentCfg
  skills : Option SkillsCfg

/-- `cfg.agent?.models ?? {}` as an association list. -/
def configModels (cfg : ClawdConfig) : List (String × ModelAliasEntry) :=
  match cfg.agent with
  | some a => a.models.getD []
  | none => []

/-- `buildModelAliasIndex` from memory.ts: alias entries with a truthy
`alias` string, parsed as model refs, keyed by the lower-cased config key.
`Map.set` semantics are the in-place update of `alistSet`. -/
def buildModelAliasIndex (cfg : ClawdConfig) (defaultProvider : String) :
    List (String × ModelCandidate) :=
  (configModels cfg).foldl
    (fun index kv =>
      match kv.2.aliasStr with
      | some a =>
        if a = "" then index
        else
          match parseModelRef a defaultProvider with
          | some parsed => alistSet index (toLowerAscii kv.1) parsed
          | none => index
      | none => index)
    []

/-- `resolveModelRef` from memory.ts: aliases first, then a direct parse.
The second component records `fromAlias`. -/
def resolveModelRef (raw : String) (defaultProvider : String)
    (aliasIndex : List (String × ModelCandidate)) :
    Option (ModelCandidate × Bool) :=
  let trimmed := toLowerAscii (jsTrim raw)
  if trimmed = "" then none
  else
    match alistGet aliasIndex trimmed with
    | some a => some (a, true)
    | none =>
      match parseModelRef raw defaultProvider with
      | some parsed => some (parsed, false)
      | none => none

/-- `buildAllowedModelKeys` from memory.ts: the keys of `agent.models`
parsed as model refs; `none` when the map is empty or nothing parses. -/
def buildAllowedModelKeys (cfg : Option ClawdConfig) (defaultProvider : String) :
    Option (List String) :=
  let entries : List (String × ModelAliasEntry) :=
    match cfg with
    | some c => configModels c
    | none => []
  let rawAllowlist := entries.map (·.1)
  if rawAllowlist.isEmpty then none
  else
    let keys := rawAllowlist.foldl
      (fun (keys : List String) raw =>
        match parseModelRef raw defaultProvider with
        | some parsed =>
          let key := modelKey parsed.provider parsed.model
          if keys.contains key then keys else keys ++ [key]
        | none => keys)
      []
    if keys.length > 0 then some keys else none

/-- One `addCandidate` step from `resolveFallbackCandidates`: the state is
the `seen` key set paired with the accumulated candidate list. -/
def addCandidate (allowlist : Option (List String))
    (st : List String × List ModelCandidate) (candidate : ModelCandidate)
    (enforceAllowlist : Bool) : List String × List ModelCandidate :=
  if candidate.provider = "" ∨ candidate.model = "" then st
  else
    let key := modelKey candidate.provider candidate.model
    if st.1.contains key then st
    else if enforceAllowlist && (match allowlist with
          | some keys => !(keys.contains key)
          | none => false) then st
    else (st.1 ++ [key], st.2 ++ [candidate])

/-- The `fallbacks` array carried by `agent.model` when it is an object. -/
def configFallbacks (cfg : Option ClawdConfig) : List String :=
  match cfg with
  | some c =>
    match c.agent with
    | some a =>
      match a.model with
      | some (.obj o) => o.fallbacks.getD []
      | _ => []
    | none => []
  | none => []

/-- `resolveFallbackCandidates` from memory.ts: primary first (allow-list
exempt), then config fallbacks resolved through the alias index and
filtered by the allow-list, deduplicated on `provider/model`. -/
def resolveFallbackCandidates (cfg : Option ClawdConfig)
    (provider0 model0 : String) : List ModelCandidate :=
  let provider := if jsTrim provider0 = "" then DEFAULT_PROVIDER else jsTrim provider0
  let model := if jsTrim model0 = "" then DEFAULT_MODEL else jsTrim model0
  let aliasIndex := buildModelAliasIndex (cfg.getD ⟨none, none⟩) DEFAULT_PROVIDER
  let allowlist := buildAllowedModelKeys cfg DEFAULT_PROVIDER
  let st0 := addCandidate allowlist ([], []) ⟨provider, model⟩ false
  let st1 := (configFallbacks cfg).foldl
    (fun st raw =>
      match resolveModelRef raw DEFAULT_PROVIDER aliasIndex with
      | some resolved => addCandidate allowlist st resolved.1 true
      | none => st)
    st0
  st1.2

/-- The observable result of `runWithModelFallback`: a success value with
the winning candidate and the recorded attempts, a re-thrown original
error (abort, or a single failed attempt), or the aggregate error built
after multiple failures. -/
inductive FallbackOutcome (T : Type) where
  | success (result : T) (provider model : String) (attempts : List FallbackAttempt)
  | thrown (err : JsError)
  | aggregate (message : String) (attempts : List FallbackAttempt) (cause : Option JsError)

/-- The summary string of the aggregate error. -/
def fallbackSummary (attempts : List FallbackAttempt) : String :=
  if attempts.isEmpty then "unknown"
  else jsJoin " | " (attempts.map fun a => a.provider ++ "/" ++ a.model ++ ": " ++ a.error)

/-- The aggregate error message
`All models failed (<attempts.length || candidates.length>): <summary>`. -/
def aggregateMessage (attempts : List FallbackAttempt) (total : Nat) : String :=
  "All models failed (" ++
    toString (if attempts.length = 0 then total else attempts.length) ++
    "): " ++ fallbackSummary attempts

/-- The candidate loop of `runWithModelFallback`: try each candidate,
re-throw aborts, record failed attempts, and on exhaustion either re-throw
a single original error or build the aggregate error. -/
def runFallbackLoop {T : Type} (run : ModelCandidate → Except JsError T) :
    List ModelCandidate → List FallbackAttempt → Option JsError → Nat →
    FallbackOutcome T
  | [], attempts, lastError, total =>
    match lastError with
    | some e =>
      if attempts.length ≤ 1 then .thrown e
      else .aggregate (aggregateMessage attempts total) attempts (some e)
    | none => .aggregate (aggregateMessage attempts total) attempts none
  | candidate :: rest, attempts, _, total =>
    match run candidate with
    | .ok v => .success v candidate.provider candidate.model attempts
    | .error e =>
      if isAbortError e then .thrown e
      else runFallbackLoop run rest
        (attempts ++ [⟨candidate.provider, candidate.model, e.message⟩])
        (some e) total

/-- `runWithModelFallback` from memory.ts. -/
def runWithModelFallback {T : Type} (cfg : Option ClawdConfig)
    (provider model : String) (run : ModelCandidate → Except JsError T) :
    FallbackOutcome T :=
  let candidates := resolveFallbackCandidates cfg provider model
  runFallbackLoop run candidates [] none candidates.length

/-! ## Heartbeat response processing — packages/clawd-core/src/agents/sessions.ts -/

def HEARTBEAT_TOKEN : String := "[HEARTBEAT_OK]"

/-- The heartbeat token as a character list. -/
def hbTok : List Char := HEARTBEAT_TOKEN.data

/-- The `while (text.startsWith(HEARTBEAT_TOKEN))` loop of
`processHeartbeatResponse`: slice the token off and `trimStart`.  Each
iteration removes at least the token, so `t.length` bounds the iteration
count and serves as fuel. -/
def stripLeadingHbAux : Nat → List Char → List Char
  | 0, t => t
  | fuel + 1, t =>
    if hbTok.isPrefixOf t then
      stripLeadingHbAux fuel (jsTrimStartList (t.drop hbTok.length))
    else t

def stripLeadingHb (t : List Char) : List Char :=
  stripLeadingHbAux t.length t

/-- The `while (text.endsWith(HEARTBEAT_TOKEN))` loop: slice the token off
the end (`slice(0, -token.length)`) and `trimEnd`. -/
def stripTrailingHbAux : Nat → List Char → List Char
  | 0, t => t
  | fuel + 1, t =>
    if hbTok.isSuffixOf t then
      stripTrailingHbAux fuel (jsTrimEndList (t.take (t.length - hbTok.length)))
    else t

def stripTrailingHb (t : List Char) : List Char :=
  stripTrailingHbAux t.length t

structure HeartbeatResult where
  text : String
  shouldDeliver : Bool

/-- `processHeartbeatResponse` from sessions.ts: empty responses are not
delivered; token-free responses are delivered trimmed; otherwise leading
and trailing token occurrences are stripped, and if anything was stripped
and at most `ackMaxChars` characters remain the response is withheld. -/
def processHeartbeatResponse (response : String) (ackMaxChars : Nat) :
    HeartbeatResult :=
  let trimmed := jsTrimList response.data
  if trimmed = [] then ⟨"", false⟩
  else if !(containsSub trimmed hbTok) then ⟨⟨trimmed⟩, true⟩
  else
    let afterLead := stripLeadingHb trimmed
    let text := stripTrailingHb afterLead
    let didStrip := hbTok.isPrefixOf trimmed || hbTok.isSuffixOf afterLead
    if !didStrip then ⟨⟨trimmed⟩, true⟩
    else if text = [] || text.length ≤ ackMaxChars then ⟨"", false⟩
    else ⟨⟨text⟩, true⟩

/-- Specification-side description of the leading strip loop: `LeadStrips
t u` holds when repeatedly removing a leading heartbeat token (and the
whitespace after it) rewrites `t` to `u`, and `u` carries no leading
token. -/
inductive LeadStrips : List Char → List Char → Prop where
  | done (t : List Char) (h : hbTok.isPrefixOf t = false) : LeadStrips t t
  | step (t u : List Char) (h : hbTok.isPrefixOf t = true)
      (rest : LeadStrips (jsTrimStartList (t.drop hbTok.length)) u) :
      LeadStrips t u

/-- Specification-side description of the trailing strip loop. -/
inductive TrailStrips : List Char → List Char → Prop where
  | done (t : List Char) (h : hbTok.isSuffixOf t = false) : TrailStrips t t
  | step (t u : List Char) (h : hbTok.isSuffixOf t = true)
      (rest : TrailStrips (jsTrimEndList (t.take (t.length - hbTok.length))) u) :
      TrailStrips t u

/-- Specification-side suppression predicate: the trimmed response is
blank, or stripping heartbeat tokens from its edges changes it and leaves
at most `ackMaxChars` characters. -/
def heartbeatSuppressed (response : String) (ackMaxChars : Nat) : Prop :=
  let trimmed := jsTrimList response.data
  trimmed = [] ∨
    ∃ u v, LeadStrips trimmed u ∧ TrailStrips u v ∧ v ≠ trimmed ∧
      v.length ≤ ackMaxChars

/-! ## Pairing reply — src/pairing/pairing-messages.ts -/

/-- `buildPairingReply`: the unauthorized-user reply template.  The last
line interpolates the provider but ends with the literal text `<code>`. -/
def buildPairingReply (provider idLine code : String) : String :=
  jsJoin "\n"
    [ "Clawdbot: access not configured.",
      "",
      idLine,
      "",
      "Pairing code: " ++ code,
      "",
      "Ask the bot owner to approve with:",
      "clawdbot pairing approve " ++ provider ++ " <code>" ]

/-- The §6 reply template as the claim reads it, with the actual code
substituted into the approver command as well. -/
def pairingReplyClaimTemplate (provider idLine code : String) : String :=
  "Clawdbot: access not configured.\n\n" ++ idLine ++
    "\n\nPairing code: " ++ code ++
    "\n\nAsk the bot owner to approve with:\nclawdbot pairing approve " ++
    provider ++ " " ++ code

/-- The reply template as the source actually builds it: the approver
command ends in the literal placeholder `<code>`. -/
def pairingReplyActualTemplate (provider idLine code : String) : String :=
  "Clawdbot: access not configured.\n\n" ++ idLine ++
    "\n\nPairing code: " ++ code ++
    "\n\nAsk the bot owner to approve with:\nclawdbot pairing approve " ++
    provider ++ " <code>"

/-! ## Persistence traces — agents/sessions.ts `saveSessionStore` and the
cron store's `saveCronStore`

The filesystem is external state; each save function is modelled by the
ordered list of filesystem operations its success path performs.  `pid`
and `rand` stand for `process.pid` and the random component of the
temporary file name. -/

inductive FsOp where
  | mkdirParent (p : String)
  | writeFile (p : String) (content : String)
  | rename (src dst : String)
  | copyFile (src dst : String)
  | rmForce (p : String)

/-- Whether an operation copies to the given backup path. -/
def FsOp.isCopyTo (dst : String) : FsOp → Bool
  | .copyFile _ d => d = dst
  | _ => false

/-- The success-path trace of `saveCronStore`: mkdir, write the temp file
`<path>.<pid>.<rand>.tmp`, rename it onto the store path, then the
best-effort `.bak` copy. -/
def saveCronStoreTrace (storePath json pid rand : String) : List FsOp :=
  let tmp := storePath ++ "." ++ pid ++ "." ++ rand ++ ".tmp"
  [ .mkdirParent storePath,
    .writeFile tmp json,
    .rename tmp storePath,
    .copyFile storePath (storePath ++ ".bak") ]

/-- The success-path trace of `saveSessionStore`: mkdir, write the temp
file `<path>.<pid>.<rand>.tmp`, rename it onto the store path, then the
`finally` block removes the temp file.  No `.bak` copy is made. -/
def saveSessionStoreTrace (storePath json pid rand : String) : List FsOp :=
  let tmp := storePath ++ "." ++ pid ++ "." ++ rand ++ ".tmp"
  [ .mkdirParent storePath,
    .writeFile tmp json,
    .rename tmp storePath,
    .rmForce tmp ]

/-! ## Skills — packages/clawd-core/src/agents/skills.ts

`resolveClawdMetadata` parses the frontmatter `metadata` JSON string; the
result of `JSON.parse` is modelled as a `JsValue` (`none` stands for a
missing `metadata` key or a parse failure).  Ambient process state —
`process.platform`, `process.env` and the PATH scan of `hasBinary` — is
passed explicitly as `platform`, `envVar` and `hasBin`. -/

/-- `requires` metadata as declared by `ClawdSkillMetadata` in skills.ts. -/
structure SkillRequires where
  bins : Option (List String)
  anyBins : Option (List String)
  env : Option (List String)
  config : Option (List String)

/-- `ClawdSkillMetadata` (the `install` list is not consulted by the
filter and is omitted). -/
structure ClawdSkillMetadata where
  always : Option Bool
  skillKey : Option String
  primaryEnv : Option String
  emoji : Option String
  homepage : Option String
  os : Option (List String)
  requires : Option SkillRequires

/-- A loaded skill entry: the skill name plus resolved clawd metadata. -/
structure SkillEntry where
  skillName : String
  clawd : Option ClawdSkillMetadata

/-- Named-property read on a dynamic value (arrays and primitives have no
named properties of interest). -/
def jsField : JsValue → String → Option JsValue
  | .obj fields, k => alistGet fields k
  | _, _ => none

/-- `typeof v === "object"` (true for objects, arrays and `null`). -/
def jsTypeofObject : JsValue → Bool
  | .obj _ => true
  | .arr _ => true
  | .null => true
  | _ => false

/-- JavaScript `String(v)` for the value shapes `normalizeStringList` can
meet. -/
def jsToString : JsValue → String
  | .str s => s
  | .num n => toString n
  | .bool b => if b then "true" else "false"
  | .null => "null"
  | .arr xs => jsJoin "," (xs.map fun x =>
      match x with
      | .str s => s
      | .num n => toString n
      | .bool b => if b then "true" else "false"
      | .null => ""
      | _ => "")
  | .obj _ => "[object Object]"

/-- `normalizeStringList` from skills.ts: arrays map to trimmed non-empty
strings, strings split on commas, everything else to `[]`. -/
def normalizeStringList (input : Option JsValue) : List String :=
  match input with
  | none => []
  | some v =>
    if !(jsTruthy v) then []
    else
      match v with
      | .arr xs => (xs.map fun x => jsTrim (jsToString x)).filter (· ≠ "")
      | .str s =>
        ((splitListOn ',' s.data).map fun part => jsTrim ⟨part⟩).filter (· ≠ "")
      | _ => []

/-- Read a string-typed property, as the `typeof x === "string"` guards do. -/
def jsStrField (v : JsValue) (k : String) : Option String :=
  match jsField v k with
  | some (.str s) => some s
  | _ => none

/-- `resolveClawdMetadata` from skills.ts, taking the already-parsed
`metadata` JSON value.  Note that the returned object literal copies
`always`, `emoji`, `homepage`, `skillKey`, `primaryEnv` and `os` but does
NOT copy `requires` (or `install`) out of the parsed value. -/
def resolveClawdMetadata (parsedMetadata : Option JsValue) :
    Option ClawdSkillMetadata :=
  match parsedMetadata with
  | none => none
  | some parsed =>
    if !(jsTruthy parsed) || !(jsTypeofObject parsed) then none
    else
      match jsField parsed "clawd" with
      | none => none
      | some clawd =>
        if !(jsTruthy clawd) || !(jsTypeofObject clawd) then none
        else
          let osRaw := normalizeStringList (jsField clawd "os")
          some
            { always := match jsField clawd "always" with
                | some (.bool b) => some b
                | _ => none,
              emoji := jsStrField clawd "emoji",
              homepage := jsStrField clawd "homepage",
              skillKey := jsStrField clawd "skillKey",
              primaryEnv := jsStrField clawd "primaryEnv",
              os := if osRaw.length > 0 then some osRaw else none,
              requires := none }

/-- `resolveSkillKey`: `entry.clawd?.skillKey ?? skill.name`. -/
def resolveSkillKey (entry : SkillEntry) : String :=
  match entry.clawd with
  | some m => m.skillKey.getD entry.skillName
  | none => entry.skillName

/-- `resolveSkillConfig`: look up `config.skills.entries[skillKey]`. -/
def resolveSkillConfig (config : Option ClawdConfig) (skillKey : String) :
    Option SkillConfig :=
  match config with
  | some cfg =>
    match cfg.skills with
    | some sk =>
      match sk.entries with
      | some entries => alistGet entries skillKey
      | none => none
    | none => none
  | none => none

/-- Truthiness of an environment/config string (empty strings are falsy). -/
def envTruthy : Option String → Bool
  | some s => s ≠ ""
  | none => false

/-- `shouldIncludeSkill` from skills.ts: not disabled, OS matches, and
either `always` or all required binaries and environment variables are
satisfiable. -/
def shouldIncludeSkill (entry : SkillEntry) (config : Option ClawdConfig)
    (platform : String) (envVar : String → Option String)
    (hasBin : String → Bool) : Bool :=
  let skillKey := resolveSkillKey entry
  let skillConfig := resolveSkillConfig config skillKey
  let osList := (match entry.clawd with
    | some m => m.os.getD []
    | none => [])
  if (match skillConfig with
      | some sc => sc.enabled == some false
      | none => false) then false
  else if osList.length > 0 && !(osList.contains platform) then false
  else if (match entry.clawd with
      | some m => m.always == some true
      | none => false) then true
  else
    let requiredBins := (match entry.clawd with
      | some m => (match m.requires with
        | some r => r.bins.getD []
        | none => [])
      | none => [])
    if requiredBins.any (fun bin => !(hasBin bin)) then false
    else
      let requiredEnv := (match entry.clawd with
        | some m => (match m.requires with
          | some r => r.env.getD []
          | none => [])
        | none => [])
      requiredEnv.all fun envName =>
        envTruthy (envVar envName) ||
        envTruthy (match skillConfig with
          | some sc => (match sc.env with
            | some e => alistGet e envName
            | none => none)
          | none => none) ||
        ((match skillConfig with
          | some sc => envTruthy sc.apiKey
          | none => false) &&
         (match entry.clawd with
          | some m => m.primaryEnv == some envName
          | none => false))

/-! ## Inline directives — packages/clawd-core/src/agents/directives.ts

`extractThinkDirective` matches the regular expression
`(?:^|\s)\/(?:thinking|think|t)\s*:?\s*([a-zA-Z-]+)\b` (case-insensitive)
and `extractVerboseDirective` matches
`(?:^|\s)\/(?:verbose|v)(?=$|\s|:)\s*:?\s*([a-zA-Z-]+)\b`.  The matcher
below reproduces the JavaScript engine's behaviour for these two
patterns: leftmost match, ordered alternation over the keywords, greedy
`\s*`/`:?` (deterministic here because the following character class
accepts neither whitespace nor `:`), greedy `[a-zA-Z-]+` shrunk until the
trailing word boundary `\b` holds. -/

/-- The character class `[a-zA-Z-]`. -/
def argClassChar (c : Char) : Bool :=
  ('a' ≤ c && c ≤ 'z') || ('A' ≤ c && c ≤ 'Z') || c = '-'

/-- JavaScript word characters `[A-Za-z0-9_]` (for `\b`). -/
def isWordCharJs (c : Char) : Bool :=
  ('a' ≤ c && c ≤ 'z') || ('A' ≤ c && c ≤ 'Z') || ('0' ≤ c && c ≤ '9') || c = '_'

/-- Word-boundary test between the `i`-th position inside the captured run
and the character that follows (`rest` holds the characters after the
run). -/
def boundaryAt (run rest : List Char) (i : Nat) : Bool :=
  match run.drop (i - 1) with
  | p :: tail =>
    isWordCharJs p !=
      (match tail with
       | c :: _ => isWordCharJs c
       | [] =>
         match rest with
         | c :: _ => isWordCharJs c
         | [] => false)
  | [] => false

/-- Largest `i ≤ bound` (with `i ≥ 1`) at which the word boundary holds;
this is the backtracking of the greedy `[a-zA-Z-]+` against `\b`. -/
def pickBoundary (run rest : List Char) : Nat → Option Nat
  | 0 => none
  | i + 1 => if boundaryAt run rest (i + 1) then some (i + 1) else pickBoundary run rest i

/-- Match `\s*:?\s*([a-zA-Z-]+)\b` at the head of `s`; returns the number
of consumed characters and the captured argument. -/
def matchArgTail (s : List Char) : Option (Nat × List Char) :=
  let ws1 := s.takeWhile jsWhitespaceChar
  let s1 := s.dropWhile jsWhitespaceChar
  let colonCount := match s1 with
    | ':' :: _ => 1
    | _ => 0
  let s2 := s1.drop colonCount
  let ws2 := s2.takeWhile jsWhitespaceChar
  let s3 := s2.dropWhile jsWhitespaceChar
  let run := s3.takeWhile argClassChar
  let rest := s3.dropWhile argClassChar
  match pickBoundary run rest run.length with
  | some i => some (ws1.length + colonCount + ws2.length + i, run.take i)
  | none => none

/-- Case-insensitive keyword test: the next `kw.length` characters of `s`
lower-case to `kw`. -/
def ciKeywordAt (kw s : List Char) : Bool :=
  (s.take kw.length).map toLowerAsciiChar = kw

/-- Ordered alternation over the keyword list, each followed by the
optional lookahead and the argument tail; on failure the engine tries the
next keyword. -/
def tryKeywords (lookaheadOk : Option Char → Bool) :
    List (List Char) → List Char → Option (Nat × List Char)
  | [], _ => none
  | kw :: kws, r =>
    if ciKeywordAt kw r then
      let r' := r.drop kw.length
      if lookaheadOk r'.head? then
        match matchArgTail r' with
        | some (n, arg) => some (kw.length + n, arg)
        | none => tryKeywords lookaheadOk kws r
      else tryKeywords lookaheadOk kws r
    else tryKeywords lookaheadOk kws r

/-- Match `\/(?:kw1|kw2|…)(lookahead)\s*:?\s*([a-zA-Z-]+)\b` at the head
of `s`. -/
def matchSlashAt (keywords : List (List Char)) (lookaheadOk : Option Char → Bool)
    (s : List Char) : Option (Nat × List Char) :=
  match s with
  | '/' :: r =>
    (tryKeywords lookaheadOk keywords r).map fun p => (1 + p.1, p.2)
  | _ => none

/-- Scan for the leftmost match of `(?:^|\s)\/(…)…`.  At the string start
the `^` alternative is tried first, then the `\s` alternative consuming
one whitespace character; at later positions only the latter applies.
Returns the full matched text (`match[0]`) and the captured argument. -/
def scanDirective (keywords : List (List Char)) (lookaheadOk : Option Char → Bool) :
    List Char → Bool → Option (List Char × List Char)
  | s, atStart =>
    let attemptStart : Option (List Char × List Char) :=
      if atStart then
        (matchSlashAt keywords lookaheadOk s).map fun p => (s.take p.1, p.2)
      else none
    let attempt : Option (List Char × List Char) :=
      match attemptStart with
      | some res => some res
      | none =>
        match s with
        | c :: r =>
          if jsWhitespaceChar c then
            (matchSlashAt keywords lookaheadOk r).map fun p => (c :: r.take p.1, p.2)
          else none
        | [] => none
    match attempt with
    | some res => some res
    | none =>
      match s with
      | [] => none
      | _ :: r => scanDirective keywords lookaheadOk r false

def thinkKeywords : List (List Char) := ["thinking".data, "think".data, "t".data]

def verboseKeywords : List (List Char) := ["verbose".data, "v".data]

/-- `/think` has no lookahead after the keyword. -/
def thinkLookahead : Option Char → Bool := fun _ => true

/-- `/verbose` requires `(?=$|\s|:)` after the keyword. -/
def verboseLookahead : Option Char → Bool := fun c? =>
  match c? with
  | none => true
  | some c => jsWhitespaceChar c || c = ':'

inductive ThinkLevel where
  | off | minimal | low | medium | high
  deriving DecidableEq, Repr

inductive VerboseLevel where
  | off | on
  deriving DecidableEq, Repr

/-- `normalizeThinkLevel` from directives.ts (word lists verbatim, checked
in source order). -/
def normalizeThinkLevel (raw : Option String) : Option ThinkLevel :=
  match raw with
  | none => none
  | some r =>
    if r = "" then none
    else
      let key := toLowerAscii r
      if ["off"].contains key then some .off
      else if ["min", "minimal"].contains key then some .minimal
      else if ["low", "thinkhard", "think-hard", "think_hard"].contains key then some .low
      else if ["mid", "med", "medium", "thinkharder", "think-harder",
               "harder"].contains key then some .medium
      else if ["high", "ultra", "ultrathink", "think-hard", "thinkhardest",
               "highest", "max"].contains key then some .high
      else if ["think"].contains key then some .minimal
      else none

/-- `normalizeVerboseLevel` from directives.ts. -/
def normalizeVerboseLevel (raw : Option String) : Option VerboseLevel :=
  match raw with
  | none => none
  | some r =>
    if r = "" then none
    else
      let key := toLowerAscii r
      if ["off", "false", "no", "0"].contains key then some .off
      else if ["on", "full", "true", "yes", "1"].contains key then some .on
      else none

structure ExtractedDirective (T : Type) where
  cleaned : String
  level : Option T
  rawLevel : Option String
  hasDirective : Bool
  deriving Repr

/-- `extractThinkDirective` from directives.ts: when the pattern matches,
`match[0]` is removed (first substring occurrence), whitespace is
collapsed and the text trimmed — whether or not the argument normalizes
to a known level. -/
def extractThinkDirective (body : String) : ExtractedDirective ThinkLevel :=
  if body = "" then ⟨"", none, none, false⟩
  else
    match scanDirective thinkKeywords thinkLookahead body.data true with
    | none => ⟨jsTrim body, none, none, false⟩
    | some (whole, arg) =>
      ⟨⟨jsTrimList (collapseWs (removeFirstOccurrence body.data whole))⟩,
       normalizeThinkLevel (some ⟨arg⟩), some ⟨arg⟩, true⟩

/-- `extractVerboseDirective` from directives.ts. -/
def extractVerboseDirective (body : String) : ExtractedDirective VerboseLevel :=
  if body = "" then ⟨"", none, none, false⟩
  else
    match scanDirective verboseKeywords verboseLookahead body.data true with
    | none => ⟨jsTrim body, none, none, false⟩
    | some (whole, arg) =>
      ⟨⟨jsTrimList (collapseWs (removeFirstOccurrence body.data whole))⟩,
       normalizeVerboseLevel (some ⟨arg⟩), some ⟨arg⟩, true⟩

structure ExtractedDirectives where
  cleanedMessage : String
  thinkLevel : Option ThinkLevel
  verboseLevel : Option VerboseLevel
  hasDirectives : Bool
  deriving Repr

/-- `extractAllDirectives` from directives.ts: think first, then verbose
on the think-cleaned text. -/
def extractAllDirectives (message : String) : ExtractedDirectives :=
  let thinkResult := extractThinkDirective message
  let current1 := if thinkResult.hasDirective then thinkResult.cleaned else message
  let verboseResult := extractVerboseDirective current1
  let current2 := if verboseResult.hasDirective then verboseResult.cleaned else current1
  { cleanedMessage := jsTrim current2,
    thinkLevel := thinkResult.level,
    verboseLevel := verboseResult.level,
    hasDirectives := thinkResult.hasDirective || verboseResult.hasDirective }

/-! ## Concrete scenario data used by the theorems below -/

/-- Whether a filesystem operation is a copy at all. -/
def FsOp.isCopy : FsOp → Bool
  | .copyFile _ _ => true
  | _ => false

/-- Config with primary unset and fallbacks `[anthropic/claude-y,
google/gemini-z]`, and no `agent.models` allow-list. -/
def demoFallbackCfg : ClawdConfig :=
  ⟨some ⟨some (.obj ⟨none, none, some ["anthropic/claude-y", "google/gemini-z"]⟩),
    none⟩, none⟩

/-- A run function whose `openai` candidate fails (non-cancellation) and
whose other candidates succeed. -/
def demoPrimaryFailRun : ModelCandidate → Except JsError String := fun c =>
  if c.provider = "openai" then .error ⟨"Error", "primary down"⟩ else .ok "done"

/-- Empty config: no fallbacks, no allow-list. -/
def demoEmptyCfg : ClawdConfig := ⟨none, none⟩

/-- A run function that always fails with a non-cancellation error. -/
def demoAlwaysFailRun : ModelCandidate → Except JsError String := fun _ =>
  .error ⟨"Error", "boom"⟩

/-- Config with the single fallback `anthropic/claude-y`. -/
def demoOneFallbackCfg : ClawdConfig :=
  ⟨some ⟨some (.obj ⟨none, none, some ["anthropic/claude-y"]⟩), none⟩, none⟩

/-- Per-candidate errors for the all-fail scenario. -/
def demoErrOf : ModelCandidate → JsError := fun c =>
  ⟨"Error", "down: " ++ c.provider⟩

/-- A run function failing every candidate with `demoErrOf`. -/
def demoErrOfRun : ModelCandidate → Except JsError String := fun c =>
  .error (demoErrOf c)

/-- A cron evaluator (standing for croner) that always fires one
millisecond later. -/
def cronEvalSucc : String → Option String → Int → Option Int :=
  fun _ _ nowMs => some (nowMs + 1)

/-- The nested-envelope cron job input `{data: {data: {name: "j"}}}`. -/
def demoNestedJob : JsValue :=
  .obj [("data", .obj [("data", .obj [("name", .str "j")])])]

/-- Parsed frontmatter metadata declaring a required binary:
`{"clawd":{"requires":{"bins":["mytool"]}}}`. -/
def demoSkillMeta : JsValue :=
  .obj [("clawd", .obj [("requires", .obj [("bins", .arr [.str "mytool"])])])]

/-- The skill entry the loader builds from `demoSkillMeta`. -/
def demoSkillEntry : SkillEntry :=
  ⟨"demo", resolveClawdMetadata (some demoSkillMeta)⟩

/-- The same entry as `shouldIncludeSkill`'s own metadata type would
carry it if `requires` survived resolution. -/
def demoSkillEntryWithRequires : SkillEntry :=
  ⟨"demo", some ⟨none, none, none, none, none, none,
    some ⟨some ["mytool"], none, none, none⟩⟩⟩

/-! ## Theorems -/

theorem str_merge (a b c : String) (h : a ++ b = c) (X : String) :
    a ++ (b ++ X) = c ++ X := by
  rw [← String.append_assoc, h]

/-- C9 counterexample: the session store's success-path persist performs no
copy operation at all — in particular no `.bak` copy of
`sessions.json` — so the claimed tmp+rename+`.bak` discipline fails on its
`.bak` leg.  (The cron store's trace, for contrast, does end in the
`.bak` copy.) -/
theorem saveSessionStore_no_bak_copy :
    (saveSessionStoreTrace "/state/sessions.json" "{}" "123" "abcd").all
        (fun op => !(FsOp.isCopy op)) = true ∧
      FsOp.copyFile "/state/jobs.json" "/state/jobs.json.bak" ∈
        saveCronStoreTrace "/state/jobs.json" "{}" "123" "abcd" := by
  constructor
  · rfl
  · simp [saveCronStoreTrace]

/-- C9 amended: for every store path, serialized payload, pid and random
component, the session store's successful persist writes the serialized
JSON to `<path>.<pid>.<rand>.tmp`, renames it onto the final path, and
then removes the temp file — it makes no `.bak` copy; the cron store's
`saveCronStore` is the one that follows tmp+rename with a best-effort
`.bak` copy. -/
theorem save_store_traces (p json pid rand : String) :
    saveSessionStoreTrace p json pid rand =
      [ .mkdirParent p,
        .writeFile (p ++ "." ++ pid ++ "." ++ rand ++ ".tmp") json,
        .rename (p ++ "." ++ pid ++ "." ++ rand ++ ".tmp") p,
        .rmForce (p ++ "." ++ pid ++ "." ++ rand ++ ".tmp") ] ∧
    (saveSessionStoreTrace p json pid rand).all (fun op => !(FsOp.isCopy op)) = true ∧
    saveCronStoreTrace p json pid rand =
      [ .mkdirParent p,
        .writeFile (p ++ "." ++ pid ++ "." ++ rand ++ ".tmp") json,
        .rename (p ++ "." ++ pid ++ "." ++ rand ++ ".tmp") p,
        .copyFile p (p ++ ".bak") ] := by
  exact ⟨rfl, rfl, rfl⟩

/-- C10 counterexample: at provider `discord`, idLine `Your Discord user
id: 1` and code `ABC123`, the built reply's approver command line reads
`clawdbot pairing approve discord <code>` — the literal placeholder
`<code>`, not the actual code — so it differs from the claimed template
with the code substituted. -/
theorem buildPairingReply_placeholder_not_code :
    buildPairingReply "discord" "Your Discord user id: 1" "ABC123" =
      "Clawdbot: access not configured.\n\nYour Discord user id: 1\n\nPairing code: ABC123\n\nAsk the bot owner to approve with:\nclawdbot pairing approve discord <code>" ∧
    buildPairingReply "discord" "Your Discord user id: 1" "ABC123" ≠
      pairingReplyClaimTemplate "discord" "Your Discord user id: 1" "ABC123" := by
  exact ⟨by decide, by decide⟩

/-- C10 amended: for every provider, idLine and code, the reply is exactly
the §6 template with the actual idLine, the actual code in the
`Pairing code:` line, and the actual provider in the approver command —
whose final argument is the literal placeholder `<code>` rather than the
actual code (as the repository's own pairing-messages test expects). -/
theorem buildPairingReply_template_eq (provider idLine code : String) :
    buildPairingReply provider idLine code =
      pairingReplyActualTemplate provider idLine code := by
  simp only [buildPairingReply, pairingReplyActualTemplate, jsJoin,
    String.append_assoc]
  simp only [str_merge _ _ _ (by decide : ("\n" : String) ++ "" = "\n"),
    str_merge _ _ _ (by decide : ("\n" : String) ++ "\n" = "\n\n"),
    str_merge _ _ _
      (by decide : ("Clawdbot: access not configured." : String) ++ "\n\n" =
        "Clawdbot: access not configured.\n\n"),
    str_merge _ _ _ (by decide : ("\n\n" : String) ++ "Pairing code: " =
      "\n\nPairing code: "),
    str_merge _ _ _ (by decide : ("\n" : String) ++ "clawdbot pairing approve " =
      "\nclawdbot pairing approve "),
    str_merge _ _ _
      (by decide : ("Ask the bot owner to approve with:" : String) ++
        "\nclawdbot pairing approve " =
        "Ask the bot owner to approve with:\nclawdbot pairing approve "),
    str_merge _ _ _
      (by decide : ("\n\n" : String) ++
        "Ask the bot owner to approve with:\nclawdbot pairing approve " =
        "\n\nAsk the bot owner to approve with:\nclawdbot pairing approve ")]

theorem ediv_pred_self (E : Int) (hE : 1 ≤ E) : (E - 1) / E = 0 :=
  Int.ediv_eq_zero_of_lt (by omega) (by omega)

theorem ediv_mul_shift (S E : Int) (hE : 1 ≤ E) : (S * E + E - 1) / E = S := by
  have h : S * E + E - 1 = (E - 1) + S * E := by ring
  rw [h, Int.add_mul_ediv_right _ _ (by omega : E ≠ 0), ediv_pred_self E hE]
  omega

/-- C3: for an `every` schedule with a positive period and a non-negative
anchor, `computeNextRunAtMs` returns the anchor when `now` precedes it,
and otherwise `anchor + k·everyMs` for the least `k ≥ 1` with
`anchor + k·everyMs ≥ now`. -/
theorem computeNextRunAtMs_every_characterization
    (cronEval : String → Option String → Int → Option Int)
    (e a now : Int) (he : 1 ≤ e) (ha : 0 ≤ a) :
    ∃ r, computeNextRunAtMs cronEval (.every e (some a)) now = some r ∧
      (now < a → r = a) ∧
      (a ≤ now → 1 ≤ (r - a) / e ∧ r = a + ((r - a) / e) * e ∧ now ≤ r ∧
        ∀ j : Int, 1 ≤ j → now ≤ a + j * e → r ≤ a + j * e) := by
  have hmaxe : max 1 e = e := max_eq_right he
  have hmaxa : max 0 a = a := max_eq_right ha
  by_cases hlt : now < a
  · refine ⟨a, ?_, fun _ => rfl, fun hge => absurd hge (by omega)⟩
    simp [computeNextRunAtMs, hmaxe, hmaxa, hlt]
  · have hge : a ≤ now := by omega
    set d := now - a with hd
    have hd0 : 0 ≤ d := by omega
    have hdm := Int.ediv_add_emod (d + e - 1) e
    have hm0 : 0 ≤ (d + e - 1) % e := Int.emod_nonneg _ (by omega)
    have hm1 : (d + e - 1) % e < e := Int.emod_lt_of_pos _ (by omega)
    set q := (d + e - 1) / e with hqdef
    have hqe : d ≤ e * q := by omega
    set S := max 1 q with hS
    have hS1 : 1 ≤ S := le_max_left _ _
    have hSq : q ≤ S := le_max_right _ _
    have hSe : e * q ≤ e * S := by
      exact mul_le_mul_of_nonneg_left hSq (by omega)
    have hres : computeNextRunAtMs cronEval (.every e (some a)) now =
        some (a + S * e) := by
      simp only [computeNextRunAtMs, Option.getD_some, hmaxe, hmaxa]
      rw [if_neg (by omega)]
    refine ⟨a + S * e, hres, fun h => absurd h (by omega), fun _ => ?_⟩
    have hsub : (a + S * e - a) / e = S := by
      have h1 : a + S * e - a = S * e := by ring
      rw [h1, Int.mul_ediv_cancel _ (by omega : e ≠ 0)]
    refine ⟨by rw [hsub]; exact hS1, by rw [hsub], by nlinarith, ?_⟩
    intro j hj hnow
    have hqj : q ≤ j ∨ q ≤ 1 := by
      by_contra hcon
      push_neg at hcon
      obtain ⟨hjq, _⟩ := hcon
      have hj1 : j + 1 ≤ q := by omega
      have : (j + 1) * e ≤ q * e := mul_le_mul_of_nonneg_right hj1 (by omega)
      have hje : d ≤ j * e := by omega
      nlinarith
    have hSj : S ≤ j := by
      rcases hqj with h | h
      · omega
      · omega
    have : S * e ≤ j * e := mul_le_mul_of_nonneg_right hSj (by omega)
    omega

theorem computeNextRunAtMs_every_characterization_witness :
    (1 : Int) ≤ 60000 ∧ (0 : Int) ≤ 1000000 ∧
    (∃ r, computeNextRunAtMs cronEvalSucc (.every 60000 (some 1000000)) 1059000 =
        some r ∧
      (1059000 < (1000000 : Int) → r = 1000000) ∧
      ((1000000 : Int) ≤ 1059000 → 1 ≤ (r - 1000000) / 60000 ∧
        r = 1000000 + ((r - 1000000) / 60000) * 60000 ∧ 1059000 ≤ r ∧
        ∀ j : Int, 1 ≤ j → 1059000 ≤ 1000000 + j * 60000 →
          r ≤ 1000000 + j * 60000)) ∧
    computeNextRunAtMs cronEvalSucc (.every 60000 (some 1000000)) 1059000 =
      some 1060000 ∧
    computeNextRunAtMs cronEvalSucc (.every 60000 (some 1000000)) 1060001 =
      some 1120000 ∧
    computeNextRunAtMs cronEvalSucc (.every 1 (some 777)) 777 = some 778 :=
  ⟨by decide, by decide,
    computeNextRunAtMs_every_characterization cronEvalSucc 60000 1000000 1059000
      (by decide) (by decide),
    by decide, by decide, by decide⟩

theorem max_one_mul_ge (q E : Int) (hE : 1 ≤ E) : E ≤ max 1 q * E := by
  have h := mul_le_mul_of_nonneg_right (le_max_left 1 q) (by omega : (0:Int) ≤ E)
  omega

/-- C4: for every schedule kind and every time, re-evaluating
`computeNextRunAtMs` at the previously computed next-run time never
yields an earlier time.  The abstracted croner evaluator is assumed to
return a strictly later run, which is `nextRun`'s contract. -/
theorem computeNextRunAtMs_monotone
    (cronEval : String → Option String → Int → Option Int)
    (hcron : ∀ expr tz u v, cronEval expr tz u = some v → u < v)
    (s : CronSchedule) (now t t' : Int)
    (h1 : computeNextRunAtMs cronEval s now = some t)
    (h2 : computeNextRunAtMs cronEval s t = some t') :
    t ≤ t' := by
  cases s with
  | «at» atMs =>
    simp only [computeNextRunAtMs] at h1 h2
    split_ifs at h1 h2
    all_goals simp_all
  | every e0 a0 =>
    have hE : 1 ≤ max 1 e0 := le_max_left _ _
    cases a0 with
    | some av =>
      simp only [computeNextRunAtMs, Option.getD_some] at h1 h2
      split_ifs at h1 h2 with hc1 hc2 hc2
      · -- now < anchor and t < anchor: t = anchor contradicts t < anchor
        simp only [Option.some.injEq] at h1 h2
        omega
      · -- now < anchor, t ≥ anchor: t = anchor, second call steps from 0
        simp only [Option.some.injEq] at h1 h2
        rw [show t - max 0 av + max 1 e0 - 1 = (t - max 0 av) + max 1 e0 - 1
          from rfl] at h2
        rw [show t - max 0 av = 0 from by omega] at h2
        rw [show (0 : Int) + max 1 e0 - 1 = max 1 e0 - 1 from by ring,
          ediv_pred_self _ hE] at h2
        have := max_one_mul_ge 0 (max 1 e0) hE
        omega
      · -- now ≥ anchor, t < anchor: impossible since t = anchor + steps·E
        simp only [Option.some.injEq] at h1
        have := max_one_mul_ge ((now - max 0 av + max 1 e0 - 1) / max 1 e0)
          (max 1 e0) hE
        omega
      · -- now ≥ anchor, t ≥ anchor: the second call reproduces t
        simp only [Option.some.injEq] at h1 h2
        rw [show t - max 0 av + max 1 e0 - 1 =
            (max 1 ((now - max 0 av + max 1 e0 - 1) / max 1 e0) * max 1 e0) +
              max 1 e0 - 1 from by omega,
          ediv_mul_shift _ _ hE] at h2
        rw [show max 1 (max 1 ((now - max 0 av + max 1 e0 - 1) / max 1 e0)) =
            max 1 ((now - max 0 av + max 1 e0 - 1) / max 1 e0) from by omega] at h2
        omega
    | none =>
      simp only [computeNextRunAtMs, Option.getD_none] at h1 h2
      split_ifs at h1 h2 with hc1 hc2 hc2
      · simp only [Option.some.injEq] at h1 h2
        omega
      · -- now < max 0 now forces now < 0 and t = 0
        simp only [Option.some.injEq] at h1 h2
        rw [show t - max 0 t + max 1 e0 - 1 = max 1 e0 - 1 from by omega,
          ediv_pred_self _ hE] at h2
        have := max_one_mul_ge 0 (max 1 e0) hE
        omega
      · -- now ≥ max 0 now gives t = now + E > 0, then t < max 0 t is false
        simp only [Option.some.injEq] at h1
        rw [show now - max 0 now + max 1 e0 - 1 = max 1 e0 - 1 from by omega,
          ediv_pred_self _ hE] at h1
        have := max_one_mul_ge 0 (max 1 e0) hE
        omega
      · simp only [Option.some.injEq] at h1 h2
        rw [show now - max 0 now + max 1 e0 - 1 = max 1 e0 - 1 from by omega,
          ediv_pred_self _ hE] at h1
        rw [show t - max 0 t + max 1 e0 - 1 = max 1 e0 - 1 from by omega,
          ediv_pred_self _ hE] at h2
        have := max_one_mul_ge 0 (max 1 e0) hE
        omega
  | cron expr tz =>
    simp only [computeNextRunAtMs] at h1 h2
    split_ifs at h1 h2 with hc
    have ha := hcron _ _ _ _ h1
    have hb := hcron _ _ _ _ h2
    omega

theorem computeNextRunAtMs_monotone_witness :
    computeNextRunAtMs cronEvalSucc (.every 60000 (some 1000000)) 1059000 =
      some 1060000 ∧
    computeNextRunAtMs cronEvalSucc (.every 60000 (some 1000000)) 1060000 =
      some 1060000 ∧
    (1060000 : Int) ≤ 1060000 :=
  ⟨by decide, by decide,
    computeNextRunAtMs_monotone cronEvalSucc
      (fun _ _ u v h => by
        simp only [cronEvalSucc, Option.some.injEq] at h
        omega)
      (.every 60000 (some 1000000)) 1059000 1060000 1060000
      (by decide) (by decide)⟩

/-- C1: when the primary candidate fails with a non-cancellation error and
the next candidate succeeds, `runWithModelFallback` returns the
fallback's result tagged with the fallback's provider and model, and the
attempts array has exactly one entry recording the primary's provider,
model and error message. -/
theorem runWithModelFallback_first_fallback_success {T : Type}
    (cfg : Option ClawdConfig) (p m : String)
    (run : ModelCandidate → Except JsError T)
    (c0 c1 : ModelCandidate) (rest : List ModelCandidate)
    (e : JsError) (v : T)
    (hc : resolveFallbackCandidates cfg p m = c0 :: c1 :: rest)
    (h0 : run c0 = .error e) (hab : isAbortError e = false)
    (h1 : run c1 = .ok v) :
    runWithModelFallback cfg p m run =
      .success v c1.provider c1.model [⟨c0.provider, c0.model, e.message⟩] := by
  simp [runWithModelFallback, hc, runFallbackLoop, h0, hab, h1]

theorem runWithModelFallback_first_fallback_success_witness :
    resolveFallbackCandidates (some demoFallbackCfg) "openai" "gpt-x" =
      [⟨"openai", "gpt-x"⟩, ⟨"anthropic", "claude-y"⟩, ⟨"google", "gemini-z"⟩] ∧
    demoPrimaryFailRun ⟨"openai", "gpt-x"⟩ = .error ⟨"Error", "primary down"⟩ ∧
    isAbortError ⟨"Error", "primary down"⟩ = false ∧
    demoPrimaryFailRun ⟨"anthropic", "claude-y"⟩ = .ok "done" ∧
    runWithModelFallback (some demoFallbackCfg) "openai" "gpt-x"
        demoPrimaryFailRun =
      .success "done" "anthropic" "claude-y"
        [⟨"openai", "gpt-x", "primary down"⟩] :=
  ⟨rfl, rfl, rfl, rfl,
    runWithModelFallback_first_fallback_success (some demoFallbackCfg)
      "openai" "gpt-x" demoPrimaryFailRun
      ⟨"openai", "gpt-x"⟩ ⟨"anthropic", "claude-y"⟩ [⟨"google", "gemini-z"⟩]
      ⟨"Error", "primary down"⟩ "done" rfl rfl rfl rfl⟩

/-- C2 counterexample: with no fallbacks configured the candidate chain is
only the primary; when it fails with a non-cancellation error the
original error is re-thrown unchanged (the `attempts.length <= 1` path of
the source), not an aggregate error naming the attempt. -/
theorem runWithModelFallback_single_failure_not_aggregate :
    resolveFallbackCandidates (some demoEmptyCfg) "openai" "gpt-x" =
      [⟨"openai", "gpt-x"⟩] ∧
    runWithModelFallback (some demoEmptyCfg) "openai" "gpt-x"
        demoAlwaysFailRun = .thrown ⟨"Error", "boom"⟩ :=
  ⟨rfl, rfl⟩

theorem runFallbackLoop_all_fail {T : Type}
    (run : ModelCandidate → Except JsError T)
    (errOf : ModelCandidate → JsError) (cands : List ModelCandidate)
    (h : ∀ c ∈ cands, run c = .error (errOf c) ∧ isAbortError (errOf c) = false) :
    ∀ attempts lastError total,
      runFallbackLoop run cands attempts lastError total =
        runFallbackLoop (T := T) run []
          (attempts ++ cands.map fun c => ⟨c.provider, c.model, (errOf c).message⟩)
          (match cands.getLast? with
           | some l => some (errOf l)
           | none => lastError)
          total := by
  induction cands with
  | nil => intro attempts lastError total; simp
  | cons c rest ih =>
    intro attempts lastError total
    have hc := h c (by simp)
    rw [show runFallbackLoop run (c :: rest) attempts lastError total =
        runFallbackLoop run rest
          (attempts ++ [⟨c.provider, c.model, (errOf c).message⟩])
          (some (errOf c)) total from by
      simp [runFallbackLoop, hc.1, hc.2]]
    rw [ih (fun c' hc' => h c' (by simp [hc']))]
    cases rest with
    | nil => simp
    | cons r rs =>
      simp only [List.getLast?_cons_cons, List.map_cons, List.append_assoc]
      rcases hgl : (r :: rs).getLast? with _ | l
      · rw [List.getLast?_eq_none_iff] at hgl
        exact absurd hgl (by simp)
      · rfl

theorem runFallbackLoop_abort {T : Type}
    (run : ModelCandidate → Except JsError T)
    (errOf : ModelCandidate → JsError) (pre : List ModelCandidate)
    (hpre : ∀ c' ∈ pre, run c' = .error (errOf c') ∧ isAbortError (errOf c') = false)
    (c : ModelCandidate) (post : List ModelCandidate) (e : JsError)
    (hc : run c = .error e) (hab : isAbortError e = true) :
    ∀ attempts lastError total,
      runFallbackLoop run (pre ++ c :: post) attempts lastError total =
        .thrown e := by
  induction pre with
  | nil => intro attempts lastError total; simp [runFallbackLoop, hc, hab]
  | cons c' rest ih =>
    intro attempts lastError total
    have hc' := hpre c' (by simp)
    rw [show (c' :: rest) ++ c :: post = c' :: (rest ++ c :: post) from rfl]
    rw [show runFallbackLoop run (c' :: (rest ++ c :: post)) attempts lastError
          total =
        runFallbackLoop run (rest ++ c :: post)
          (attempts ++ [⟨c'.provider, c'.model, (errOf c').message⟩])
          (some (errOf c')) total from by
      simp [runFallbackLoop, hc'.1, hc'.2]]
    exact ih (fun x hx => hpre x (by simp [hx])) _ _ _

/-- C2 amended: when every candidate fails with a non-cancellation error,
a chain of two or more candidates raises the aggregate error whose
attempts list (and message) records every attempted provider/model with
its error; a chain of exactly one candidate re-throws the original error
unchanged.  A cancellation (abort) error propagates immediately without
trying further candidates, regardless of where it occurs in the chain. -/
theorem runWithModelFallback_failure_modes {T : Type}
    (cfg : Option ClawdConfig) (p m : String)
    (run : ModelCandidate → Except JsError T)
    (errOf : ModelCandidate → JsError) :
    ((∀ c ∈ resolveFallbackCandidates cfg p m,
        run c = .error (errOf c) ∧ isAbortError (errOf c) = false) →
      (∀ c, resolveFallbackCandidates cfg p m = [c] →
        runWithModelFallback cfg p m run = .thrown (errOf c)) ∧
      (∀ c0 c1 rest l, resolveFallbackCandidates cfg p m = c0 :: c1 :: rest →
        (resolveFallbackCandidates cfg p m).getLast? = some l →
        runWithModelFallback cfg p m run =
          .aggregate
            (aggregateMessage
              ((resolveFallbackCandidates cfg p m).map
                fun c => ⟨c.provider, c.model, (errOf c).message⟩)
              (resolveFallbackCandidates cfg p m).length)
            ((resolveFallbackCandidates cfg p m).map
              fun c => ⟨c.provider, c.model, (errOf c).message⟩)
            (some (errOf l)))) ∧
    (∀ pre c post e, resolveFallbackCandidates cfg p m = pre ++ c :: post →
      (∀ c' ∈ pre, run c' = .error (errOf c') ∧ isAbortError (errOf c') = false) →
      run c = .error e → isAbortError e = true →
      runWithModelFallback cfg p m run = .thrown e) := by
  constructor
  · intro hall
    constructor
    · intro c hc
      rw [runWithModelFallback, hc]
      rw [runFallbackLoop_all_fail run errOf [c] (by rw [← hc]; exact hall)]
      simp [runFallbackLoop]
    · intro c0 c1 rest l hc hl
      rw [runWithModelFallback, hc]
      rw [runFallbackLoop_all_fail run errOf (c0 :: c1 :: rest)
        (by rw [← hc]; exact hall)]
      rw [hc] at hl
      rw [hl]
      simp only [runFallbackLoop, List.nil_append]
      rw [if_neg (by simp)]
  · intro pre c post e hc hpre hrc hab
    rw [runWithModelFallback, hc]
    exact runFallbackLoop_abort run errOf pre hpre c post e hrc hab _ _ _

theorem runWithModelFallback_failure_modes_witness :
    resolveFallbackCandidates (some demoOneFallbackCfg) "openai" "gpt-x" =
      [⟨"openai", "gpt-x"⟩, ⟨"anthropic", "claude-y"⟩] ∧
    demoErrOfRun ⟨"openai", "gpt-x"⟩ = .error (demoErrOf ⟨"openai", "gpt-x"⟩) ∧
    demoErrOfRun ⟨"anthropic", "claude-y"⟩ =
      .error (demoErrOf ⟨"anthropic", "claude-y"⟩) ∧
    isAbortError (demoErrOf ⟨"openai", "gpt-x"⟩) = false ∧
    isAbortError (demoErrOf ⟨"anthropic", "claude-y"⟩) = false ∧
    runWithModelFallback (some demoOneFallbackCfg) "openai" "gpt-x"
        demoErrOfRun =
      .aggregate
        "All models failed (2): openai/gpt-x: down: openai | anthropic/claude-y: down: anthropic"
        [⟨"openai", "gpt-x", "down: openai"⟩,
         ⟨"anthropic", "claude-y", "down: anthropic"⟩]
        (some ⟨"Error", "down: anthropic"⟩) :=
  ⟨rfl, rfl, rfl, rfl, rfl, by
    have h := (runWithModelFallback_failure_modes (some demoOneFallbackCfg)
      "openai" "gpt-x" demoErrOfRun demoErrOf).1
      (by
        intro c hc
        rw [show resolveFallbackCandidates (some demoOneFallbackCfg)
            "openai" "gpt-x" =
          [⟨"openai", "gpt-x"⟩, ⟨"anthropic", "claude-y"⟩] from rfl] at hc
        simp only [List.mem_cons, List.not_mem_nil, or_false] at hc
        rcases hc with rfl | rfl
        · exact ⟨rfl, rfl⟩
        · exact ⟨rfl, rfl⟩)
    have h2 := h.2 ⟨"openai", "gpt-x"⟩ ⟨"anthropic", "claude-y"⟩ []
      ⟨"anthropic", "claude-y"⟩ rfl rfl
    exact h2⟩

theorem alistGet_alistSet_self {α : Type} (l : List (String × α)) (k : String)
    (v : α) : alistGet (alistSet l k v) k = some v := by
  induction l with
  | nil => simp [alistSet, alistGet]
  | cons p rest ih =>
    obtain ⟨k', v'⟩ := p
    by_cases h : k' = k
    · simp [alistSet, alistGet, h]
    · simp [alistSet, alistGet, h, ih]

theorem alistGet_alistSet_ne {α : Type} (l : List (String × α)) (k k' : String)
    (v : α) (h : k ≠ k') : alistGet (alistSet l k v) k' = alistGet l k' := by
  induction l with
  | nil => simp [alistSet, alistGet, h]
  | cons p rest ih =>
    obtain ⟨k0, v0⟩ := p
    by_cases h0 : k0 = k
    · subst h0
      simp [alistSet, alistGet, h]
    · by_cases h1 : k0 = k'
      · simp [alistSet, alistGet, h0, h1, Ne.symm h]
      · simp [alistSet, alistGet, h0, h1, ih]

theorem alistSet_self {α : Type} (l : List (String × α)) (k : String) (v : α)
    (h : alistGet l k = some v) : alistSet l k v = l := by
  induction l with
  | nil => simp [alistGet] at h
  | cons p rest ih =>
    obtain ⟨k0, v0⟩ := p
    by_cases h0 : k0 = k
    · subst h0
      simp [alistGet] at h
      simp [alistSet, h]
    · simp [alistGet, h0] at h
      simp [alistSet, h0, ih h]

theorem coerceSchedule_cases (s : List (String × JsValue)) :
    coerceSchedule s = s ∨
      ∃ K, K ≠ "" ∧ coerceSchedule s = alistSet s "kind" (.str K) := by
  unfold coerceSchedule
  repeat' split
  all_goals first
    | exact Or.inl rfl
    | exact Or.inr ⟨"at", by simp, rfl⟩
    | exact Or.inr ⟨"every", by simp, rfl⟩
    | exact Or.inr ⟨"cron", by simp, rfl⟩

theorem coerceSchedule_idem (s : List (String × JsValue)) :
    coerceSchedule (coerceSchedule s) = coerceSchedule s := by
  rcases coerceSchedule_cases s with h | ⟨K, hK, h⟩
  · rw [h]
    exact h
  · rw [h]
    unfold coerceSchedule
    rw [alistGet_alistSet_self]
    simp [hK]

theorem coercePayload_cases (p : List (String × JsValue)) :
    coercePayload p = p ∨
      ∃ K, K ≠ "" ∧ coercePayload p = alistSet p "kind" (.str K) := by
  unfold coercePayload
  repeat' split
  all_goals first
    | exact Or.inl rfl
    | exact Or.inr ⟨"systemEvent", by simp, rfl⟩
    | exact Or.inr ⟨"agentTurn", by simp, rfl⟩

theorem coercePayload_idem (p : List (String × JsValue)) :
    coercePayload (coercePayload p) = coercePayload p := by
  rcases coercePayload_cases p with h | ⟨K, hK, h⟩
  · rw [h]
    exact h
  · rw [h]
    unfold coercePayload
    rw [alistGet_alistSet_self]
    simp [hK]

theorem alistSet_alistSet {α : Type} (l : List (String × α)) (k : String)
    (v w : α) : alistSet (alistSet l k v) k w = alistSet l k w := by
  induction l with
  | nil => simp [alistSet]
  | cons p rest ih =>
    obtain ⟨k0, v0⟩ := p
    by_cases h0 : k0 = k
    · simp [alistSet, h0]
    · simp [alistSet, h0, ih]

theorem recordFieldsOpt_eq_some {o : Option JsValue}
    {s : List (String × JsValue)} :
    recordFieldsOpt o = some s ↔ o = some (.obj s) := by
  cases o with
  | none => simp [recordFieldsOpt]
  | some v => cases v <;> simp [recordFieldsOpt]

theorem recordFieldsOpt_none_of_not_record {o : Option JsValue}
    (h : isRecordOpt o = false) : recordFieldsOpt o = none := by
  cases o with
  | none => rfl
  | some v => cases v <;> simp_all [isRecordOpt, isRecord, recordFieldsOpt]

theorem unwrapJob_fix (y : List (String × JsValue))
    (hd : isRecordOpt (alistGet y "data") = false)
    (hj : isRecordOpt (alistGet y "job") = false) : unwrapJob y = y := by
  unfold unwrapJob
  rw [recordFieldsOpt_none_of_not_record hd,
    recordFieldsOpt_none_of_not_record hj]

theorem coerceScheduleStep_cases (b : List (String × JsValue)) :
    (coerceScheduleStep b = b ∧ recordFieldsOpt (alistGet b "schedule") = none) ∨
      ∃ s, alistGet b "schedule" = some (.obj s) ∧
        coerceScheduleStep b = alistSet b "schedule" (.obj (coerceSchedule s)) := by
  unfold coerceScheduleStep
  rcases hs : recordFieldsOpt (alistGet b "schedule") with _ | s
  · exact Or.inl ⟨rfl, rfl⟩
  · exact Or.inr ⟨s, recordFieldsOpt_eq_some.mp hs, rfl⟩

theorem coerceScheduleStep_idem (b : List (String × JsValue)) :
    coerceScheduleStep (coerceScheduleStep b) = coerceScheduleStep b := by
  rcases coerceScheduleStep_cases b with ⟨h, _⟩ | ⟨s, hs, h⟩
  · rw [h]
    exact h
  · rw [h]
    unfold coerceScheduleStep
    rw [alistGet_alistSet_self]
    simp only [recordFieldsOpt]
    rw [alistSet_alistSet, coerceSchedule_idem]

theorem coerceScheduleStep_get_ne (b : List (String × JsValue)) (k : String)
    (h : k ≠ "schedule") :
    alistGet (coerceScheduleStep b) k = alistGet b k := by
  rcases coerceScheduleStep_cases b with ⟨hb, _⟩ | ⟨s, hs, hb⟩
  · rw [hb]
  · rw [hb, alistGet_alistSet_ne _ _ _ _ (Ne.symm h)]

theorem coerceScheduleStep_stable_of_get_eq (y y' : List (String × JsValue))
    (hget : alistGet y' "schedule" = alistGet y "schedule")
    (hy : coerceScheduleStep y = y) : coerceScheduleStep y' = y' := by
  rcases coerceScheduleStep_cases y' with ⟨h, _⟩ | ⟨s, hs, h⟩
  · exact h
  · have hys : alistGet y "schedule" = some (.obj s) := by rw [← hget]; exact hs
    have h1 : alistGet y "schedule" = some (.obj (coerceSchedule s)) := by
      conv_lhs => rw [← hy]
      rcases coerceScheduleStep_cases y with ⟨hb, hn⟩ | ⟨s0, hs0, hb⟩
      · rw [recordFieldsOpt_eq_some.mpr hys] at hn
        exact absurd hn (by simp)
      · rw [hs0] at hys
        injection hys with hv
        injection hv with hv2
        subst hv2
        rw [hb, alistGet_alistSet_self]
    have h2 : coerceSchedule s = s := by
      rw [hys] at h1
      injection h1 with hv
      injection hv with hv2
      exact hv2.symm
    rw [h, h2]
    exact alistSet_self _ _ _ hs

theorem coercePayloadStep_cases (b : List (String × JsValue)) :
    (coercePayloadStep b = b ∧ recordFieldsOpt (alistGet b "payload") = none) ∨
      ∃ p, alistGet b "payload" = some (.obj p) ∧
        coercePayloadStep b = alistSet b "payload" (.obj (coercePayload p)) := by
  unfold coercePayloadStep
  rcases hs : recordFieldsOpt (alistGet b "payload") with _ | p
  · exact Or.inl ⟨rfl, rfl⟩
  · exact Or.inr ⟨p, recordFieldsOpt_eq_some.mp hs, rfl⟩

theorem coercePayloadStep_idem (b : List (String × JsValue)) :
    coercePayloadStep (coercePayloadStep b) = coercePayloadStep b := by
  rcases coercePayloadStep_cases b with ⟨h, _⟩ | ⟨p, hp, h⟩
  · rw [h]
    exact h
  · rw [h]
    unfold coercePayloadStep
    rw [alistGet_alistSet_self]
    simp only [recordFieldsOpt]
    rw [alistSet_alistSet, coercePayload_idem]

theorem coercePayloadStep_get_ne (b : List (String × JsValue)) (k : String)
    (h : k ≠ "payload") :
    alistGet (coercePayloadStep b) k = alistGet b k := by
  rcases coercePayloadStep_cases b with ⟨hb, _⟩ | ⟨p, hp, hb⟩
  · rw [hb]
  · rw [hb, alistGet_alistSet_ne _ _ _ _ (Ne.symm h)]

theorem coercePayloadStep_stable_of_get_eq (y y' : List (String × JsValue))
    (hget : alistGet y' "payload" = alistGet y "payload")
    (hy : coercePayloadStep y = y) : coercePayloadStep y' = y' := by
  rcases coercePayloadStep_cases y' with ⟨h, _⟩ | ⟨p, hp, h⟩
  · exact h
  · have hys : alistGet y "payload" = some (.obj p) := by rw [← hget]; exact hp
    have h1 : alistGet y "payload" = some (.obj (coercePayload p)) := by
      conv_lhs => rw [← hy]
      rcases coercePayloadStep_cases y with ⟨hb, hn⟩ | ⟨p0, hp0, hb⟩
      · rw [recordFieldsOpt_eq_some.mpr hys] at hn
        exact absurd hn (by simp)
      · rw [hp0] at hys
        injection hys with hv
        injection hv with hv2
        subst hv2
        rw [hb, alistGet_alistSet_self]
    have h2 : coercePayload p = p := by
      rw [hys] at h1
      injection h1 with hv
      injection hv with hv2
      exact hv2.symm
    rw [h, h2]
    exact alistSet_self _ _ _ hp

theorem wakeModeStep_truthy (b : List (String × JsValue)) :
    jsTruthyOpt (alistGet (wakeModeStep b) "wakeMode") = true := by
  unfold wakeModeStep
  by_cases h : jsTruthyOpt (alistGet b "wakeMode") = true
  · rw [if_pos h]
    exact h
  · rw [if_neg h, alistGet_alistSet_self]
    simp [jsTruthyOpt, jsTruthy]

theorem wakeModeStep_fix (b : List (String × JsValue))
    (h : jsTruthyOpt (alistGet b "wakeMode") = true) : wakeModeStep b = b := by
  unfold wakeModeStep
  rw [if_pos h]

theorem wakeModeStep_get_ne (b : List (String × JsValue)) (k : String)
    (h : k ≠ "wakeMode") :
    alistGet (wakeModeStep b) k = alistGet b k := by
  unfold wakeModeStep
  by_cases hb : jsTruthyOpt (alistGet b "wakeMode") = true
  · rw [if_pos hb]
  · rw [if_neg hb, alistGet_alistSet_ne _ _ _ _ (Ne.symm h)]

theorem sessionTargetStep_cases (b : List (String × JsValue)) :
    sessionTargetStep b = b ∨
      sessionTargetStep b = alistSet b "sessionTarget" (.str "main") ∨
      sessionTargetStep b = alistSet b "sessionTarget" (.str "isolated") := by
  unfold sessionTargetStep
  repeat' split
  all_goals try exact Or.inl rfl
  all_goals dsimp only
  all_goals split_ifs <;>
    first
      | exact Or.inl rfl
      | exact Or.inr (Or.inl rfl)
      | exact Or.inr (Or.inr rfl)
      | (exact absurd ‹("systemEvent" : String) = "agentTurn"› (by decide))
      | (rename_i hk1 hk2; exact absurd (hk2.symm.trans hk1) (by decide))

theorem sessionTargetStep_fix (b : List (String × JsValue))
    (h : jsTruthyOpt (alistGet b "sessionTarget") = true) :
    sessionTargetStep b = b := by
  unfold sessionTargetStep
  rw [if_pos h]

theorem sessionTargetStep_idem (b : List (String × JsValue)) :
    sessionTargetStep (sessionTargetStep b) = sessionTargetStep b := by
  rcases sessionTargetStep_cases b with h | h | h
  · rw [h]
    exact h
  · rw [h]
    apply sessionTargetStep_fix
    rw [alistGet_alistSet_self]
    simp [jsTruthyOpt, jsTruthy]
  · rw [h]
    apply sessionTargetStep_fix
    rw [alistGet_alistSet_self]
    simp [jsTruthyOpt, jsTruthy]

theorem sessionTargetStep_get_ne (b : List (String × JsValue)) (k : String)
    (h : k ≠ "sessionTarget") :
    alistGet (sessionTargetStep b) k = alistGet b k := by
  rcases sessionTargetStep_cases b with hb | hb | hb <;>
    rw [hb] <;> try rw [alistGet_alistSet_ne _ _ _ _ (Ne.symm h)]

/-- C5 counterexample: `unwrapJob` unwraps one `data`/`job` envelope per
call, so the nested envelope `{data: {data: {name: "j"}}}` normalizes to
`{data: {name: "j"}}` and normalizing again unwraps once more —
`normalize(normalize(x)) ≠ normalize(x)`, and likewise for
`normalizeCronJobCreate` and `normalizeCronJobPatch`. -/
theorem normalizeCronJobInput_not_idempotent_on_nested_envelope :
    normalizeCronJobInput demoNestedJob false =
      some [("data", .obj [("name", .str "j")])] ∧
    normalizeCronJobInput (.obj [("data", .obj [("name", .str "j")])]) false =
      some [("name", .str "j")] ∧
    ([("data", JsValue.obj [("name", JsValue.str "j")])] :
      List (String × JsValue)) ≠ [("name", JsValue.str "j")] ∧
    normalizeCronJobCreate demoNestedJob none =
      some [("data", .obj [("name", .str "j")]),
        ("wakeMode", .str "next-heartbeat")] ∧
    normalizeCronJobCreate
        (.obj [("data", .obj [("name", .str "j")]),
          ("wakeMode", .str "next-heartbeat")]) none =
      some [("name", .str "j"), ("wakeMode", .str "next-heartbeat")] ∧
    ([("data", JsValue.obj [("name", JsValue.str "j")]),
        ("wakeMode", JsValue.str "next-heartbeat")] :
      List (String × JsValue)) ≠
      [("name", JsValue.str "j"), ("wakeMode", JsValue.str "next-heartbeat")] ∧
    normalizeCronJobPatch demoNestedJob none =
      some [("data", .obj [("name", .str "j")])] ∧
    normalizeCronJobPatch (.obj [("data", .obj [("name", .str "j")])]) none =
      some [("name", .str "j")] :=
  ⟨rfl, rfl,
    fun h => absurd (congrArg (List.map fun p => p.1) h) (by decide),
    rfl, rfl,
    fun h => absurd (congrArg (List.map fun p => p.1) h) (by decide),
    rfl, rfl⟩

theorem normalizeCronJobFields_stable (fields : List (String × JsValue))
    (d : Bool) :
    coerceScheduleStep (normalizeCronJobFields fields d) =
        normalizeCronJobFields fields d ∧
    coercePayloadStep (normalizeCronJobFields fields d) =
        normalizeCronJobFields fields d ∧
    (d = true →
      wakeModeStep (normalizeCronJobFields fields d) =
          normalizeCronJobFields fields d ∧
      sessionTargetStep (normalizeCronJobFields fields d) =
          normalizeCronJobFields fields d) := by
  cases d with
  | false =>
    have hshow : normalizeCronJobFields fields false =
        coercePayloadStep (coerceScheduleStep (unwrapJob fields)) := rfl
    rw [hshow]
    refine ⟨?_, coercePayloadStep_idem _, fun hx => by cases hx⟩
    exact coerceScheduleStep_stable_of_get_eq _ _
      (coercePayloadStep_get_ne _ _ (by decide))
      (coerceScheduleStep_idem _)
  | true =>
    have hshow : normalizeCronJobFields fields true =
        sessionTargetStep (wakeModeStep
          (coercePayloadStep (coerceScheduleStep (unwrapJob fields)))) := rfl
    rw [hshow]
    refine ⟨?_, ?_, fun _ => ⟨?_, sessionTargetStep_idem _⟩⟩
    · apply coerceScheduleStep_stable_of_get_eq
        (wakeModeStep (coercePayloadStep (coerceScheduleStep (unwrapJob fields))))
      · exact sessionTargetStep_get_ne _ _ (by decide)
      · apply coerceScheduleStep_stable_of_get_eq
          (coercePayloadStep (coerceScheduleStep (unwrapJob fields)))
        · exact wakeModeStep_get_ne _ _ (by decide)
        · exact coerceScheduleStep_stable_of_get_eq _ _
            (coercePayloadStep_get_ne _ _ (by decide))
            (coerceScheduleStep_idem _)
    · apply coercePayloadStep_stable_of_get_eq
        (wakeModeStep (coercePayloadStep (coerceScheduleStep (unwrapJob fields))))
      · exact sessionTargetStep_get_ne _ _ (by decide)
      · exact coercePayloadStep_stable_of_get_eq _ _
          (wakeModeStep_get_ne _ _ (by decide))
          (coercePayloadStep_idem _)
    · apply wakeModeStep_fix
      rw [sessionTargetStep_get_ne _ _ (by decide : ("wakeMode" : String) ≠ "sessionTarget")]
      exact wakeModeStep_truthy _

theorem normalizeCronJobFields_idem (fields : List (String × JsValue)) (d : Bool)
    (hd : isRecordOpt (alistGet (normalizeCronJobFields fields d) "data") = false)
    (hj : isRecordOpt (alistGet (normalizeCronJobFields fields d) "job") = false) :
    normalizeCronJobFields (normalizeCronJobFields fields d) d =
      normalizeCronJobFields fields d := by
  obtain ⟨h1, h2, h3⟩ := normalizeCronJobFields_stable fields d
  cases d with
  | false =>
    show coercePayloadStep (coerceScheduleStep
      (unwrapJob (normalizeCronJobFields fields false))) = _
    rw [unwrapJob_fix _ hd hj, h1, h2]
  | true =>
    obtain ⟨hw, hs⟩ := h3 rfl
    show sessionTargetStep (wakeModeStep (coercePayloadStep (coerceScheduleStep
      (unwrapJob (normalizeCronJobFields fields true))))) = _
    rw [unwrapJob_fix _ hd hj, h1, h2, hw, hs]

/-- C5 amended: cron job input normalization is idempotent for every input
whose normalized form carries no `data`/`job` envelope field of its own —
`normalize(normalize(x)) = normalize(x)` for `normalizeCronJobInput` (at
either `applyDefaults` setting), and likewise for `normalizeCronJobCreate`
and `normalizeCronJobPatch`.  (The nested-envelope counterexample is the
only obstruction: `unwrapJob` strips one envelope per call.) -/
theorem normalizeCronJob_idempotent_without_envelope
    (raw : JsValue) (d : Bool) (y : List (String × JsValue))
    (h : normalizeCronJobInput raw d = some y)
    (hd : isRecordOpt (alistGet y "data") = false)
    (hj : isRecordOpt (alistGet y "job") = false) :
    normalizeCronJobInput (.obj y) d = some y ∧
    (d = true → normalizeCronJobCreate (.obj y) none = some y) ∧
    (d = false → normalizeCronJobPatch (.obj y) none = some y) := by
  cases raw with
  | obj fields =>
    simp only [normalizeCronJobInput, Option.some.injEq] at h
    subst h
    have hmain := normalizeCronJobFields_idem fields d hd hj
    refine ⟨congrArg some hmain, fun hdt => ?_, fun hdf => ?_⟩
    · subst hdt
      exact congrArg some hmain
    · subst hdf
      exact congrArg some hmain
  | str s => simp [normalizeCronJobInput] at h
  | num n => simp [normalizeCronJobInput] at h
  | bool b => simp [normalizeCronJobInput] at h
  | null => simp [normalizeCronJobInput] at h
  | arr l => simp [normalizeCronJobInput] at h

theorem normalizeCronJob_idempotent_without_envelope_witness :
    normalizeCronJobInput (.obj [("schedule", .obj [("everyMs", .num 1000)])])
        false =
      some [("schedule",
        JsValue.obj [("everyMs", .num 1000), ("kind", .str "every")])] ∧
    isRecordOpt (alistGet [("schedule",
      JsValue.obj [("everyMs", JsValue.num 1000), ("kind", JsValue.str "every")])]
      "data") = false ∧
    isRecordOpt (alistGet [("schedule",
      JsValue.obj [("everyMs", JsValue.num 1000), ("kind", JsValue.str "every")])]
      "job") = false ∧
    (normalizeCronJobInput
        (.obj [("schedule",
          JsValue.obj [("everyMs", .num 1000), ("kind", .str "every")])]) false =
      some [("schedule",
        JsValue.obj [("everyMs", .num 1000), ("kind", .str "every")])] ∧
    (false = true → normalizeCronJobCreate
        (.obj [("schedule",
          JsValue.obj [("everyMs", .num 1000), ("kind", .str "every")])]) none =
      some [("schedule",
        JsValue.obj [("everyMs", .num 1000), ("kind", .str "every")])]) ∧
    (false = false → normalizeCronJobPatch
        (.obj [("schedule",
          JsValue.obj [("everyMs", .num 1000), ("kind", .str "every")])]) none =
      some [("schedule",
        JsValue.obj [("everyMs", .num 1000), ("kind", .str "every")])])) :=
  ⟨rfl, rfl, rfl,
    normalizeCronJob_idempotent_without_envelope
      (.obj [("schedule", .obj [("everyMs", .num 1000)])]) false
      [("schedule",
        JsValue.obj [("everyMs", .num 1000), ("kind", .str "every")])]
      rfl rfl rfl⟩

/-- C8: the loader pipeline drops `requires` from skill frontmatter
metadata.  For the frontmatter metadata
`{"clawd":{"requires":{"bins":["mytool"]}}}` with `mytool` absent from
PATH, `resolveClawdMetadata` returns metadata whose `requires` is `none`
(first conjunct), so `shouldIncludeSkill` keeps the skill (second
conjunct) — whereas with the declared `requires` propagated as the claim
and the spec describe, the same filter would exclude it (third
conjunct). -/
theorem skills_requires_dropped_demo :
    resolveClawdMetadata (some demoSkillMeta) =
      some ⟨none, none, none, none, none, none, none⟩ ∧
    shouldIncludeSkill demoSkillEntry none "linux" (fun _ => none)
      (fun _ => false) = true ∧
    shouldIncludeSkill demoSkillEntryWithRequires none "linux" (fun _ => none)
      (fun _ => false) = false :=
  ⟨rfl, rfl, rfl⟩

theorem hbTok_ne_nil : hbTok ≠ [] := by decide

theorem jsTrimStartList_length_le (l : List Char) :
    (jsTrimStartList l).length ≤ l.length :=
  (List.dropWhile_suffix _).length_le

theorem jsTrimEndList_length_le (l : List Char) :
    (jsTrimEndList l).length ≤ l.length := by
  unfold jsTrimEndList
  calc (l.reverse.dropWhile jsWhitespaceChar).reverse.length
      = (l.reverse.dropWhile jsWhitespaceChar).length := List.length_reverse _
    _ ≤ l.reverse.length := (List.dropWhile_suffix _).length_le
    _ = l.length := List.length_reverse _

theorem isPrefixOf_length_le {l t : List Char} (h : l.isPrefixOf t) :
    l.length ≤ t.length :=
  (List.isPrefixOf_iff_prefix.mp h).length_le

theorem isSuffixOf_length_le {l t : List Char} (h : l.isSuffixOf t) :
    l.length ≤ t.length :=
  (List.isSuffixOf_iff_suffix.mp h).length_le

theorem stripLeadingHbAux_congr :
    ∀ (f1 f2 : Nat) (t : List Char), t.length ≤ f1 → t.length ≤ f2 →
      stripLeadingHbAux f1 t = stripLeadingHbAux f2 t := by
  intro f1
  induction f1 with
  | zero =>
    intro f2 t h1 _
    have ht : t = [] := List.eq_nil_of_length_eq_zero (by omega)
    subst ht
    cases f2 with
    | zero => rfl
    | succ n =>
      show stripLeadingHbAux 0 [] = stripLeadingHbAux (n + 1) []
      rw [show stripLeadingHbAux (n + 1) [] = [] from by
        unfold stripLeadingHbAux
        rw [if_neg (by simp [List.isPrefixOf])]]
      rfl
  | succ n ih =>
    intro f2 t h1 h2
    cases f2 with
    | zero =>
      have ht : t = [] := List.eq_nil_of_length_eq_zero (by omega)
      subst ht
      show stripLeadingHbAux (n + 1) [] = stripLeadingHbAux 0 []
      unfold stripLeadingHbAux
      rw [if_neg (by simp [List.isPrefixOf])]
    | succ m =>
      unfold stripLeadingHbAux
      by_cases hp : hbTok.isPrefixOf t
      · rw [if_pos hp, if_pos hp]
        have hlen : hbTok.length ≤ t.length := isPrefixOf_length_le hp
        have h14 : hbTok.length = 14 := by decide
        have hnext : (jsTrimStartList (t.drop hbTok.length)).length ≤ n := by
          have := jsTrimStartList_length_le (t.drop hbTok.length)
          have := t.length_drop hbTok.length
          omega
        have hnext2 : (jsTrimStartList (t.drop hbTok.length)).length ≤ m := by
          have := jsTrimStartList_length_le (t.drop hbTok.length)
          have := t.length_drop hbTok.length
          omega
        exact ih m _ hnext hnext2
      · rw [if_neg hp, if_neg hp]

theorem stripLeadingHb_no_tok (t : List Char) (h : hbTok.isPrefixOf t = false) :
    stripLeadingHb t = t := by
  unfold stripLeadingHb
  cases hl : t.length with
  | zero => rfl
  | succ n =>
    unfold stripLeadingHbAux
    rw [if_neg (by simp [h])]

theorem stripLeadingHb_step (t : List Char) (h : hbTok.isPrefixOf t = true) :
    stripLeadingHb t = stripLeadingHb (jsTrimStartList (t.drop hbTok.length)) := by
  have hlen : hbTok.length ≤ t.length := isPrefixOf_length_le h
  have h14 : hbTok.length = 14 := by decide
  have hfuel : stripLeadingHb t = stripLeadingHbAux t.length t := rfl
  rcases hl : t.length with _ | n
  · omega
  · rw [hfuel, hl]
    show (if hbTok.isPrefixOf t then
        stripLeadingHbAux n (jsTrimStartList (t.drop hbTok.length))
      else t) = _
    rw [if_pos h]
    apply stripLeadingHbAux_congr
    · have := jsTrimStartList_length_le (t.drop hbTok.length)
      have := t.length_drop hbTok.length
      omega
    · exact Nat.le_refl _

theorem stripLeadingHbAux_length_le :
    ∀ (fuel : Nat) (t : List Char), (stripLeadingHbAux fuel t).length ≤ t.length := by
  intro fuel
  induction fuel with
  | zero => intro t; exact Nat.le_refl _
  | succ n ih =>
    intro t
    unfold stripLeadingHbAux
    by_cases hp : hbTok.isPrefixOf t
    · rw [if_pos hp]
      have h1 := ih (jsTrimStartList (t.drop hbTok.length))
      have h2 := jsTrimStartList_length_le (t.drop hbTok.length)
      have h3 := t.length_drop hbTok.length
      omega
    · rw [if_neg hp]

theorem stripLeadingHb_length_le (t : List Char) :
    (stripLeadingHb t).length ≤ t.length :=
  stripLeadingHbAux_length_le _ _

theorem leadStrips_stripLeadingHb (t : List Char) :
    LeadStrips t (stripLeadingHb t) := by
  have hgen : ∀ (fuel : Nat) (s : List Char), s.length ≤ fuel →
      LeadStrips s (stripLeadingHbAux fuel s) := by
    intro fuel
    induction fuel with
    | zero =>
      intro s hs
      have : s = [] := List.eq_nil_of_length_eq_zero (by omega)
      subst this
      exact LeadStrips.done [] (by simp [List.isPrefixOf])
    | succ n ih =>
      intro s hs
      unfold stripLeadingHbAux
      by_cases hp : hbTok.isPrefixOf s
      · rw [if_pos hp]
        refine LeadStrips.step _ _ hp (ih _ ?_)
        have h14 : hbTok.length = 14 := by decide
        have := isPrefixOf_length_le hp
        have := jsTrimStartList_length_le (s.drop hbTok.length)
        have := s.length_drop hbTok.length
        omega
      · rw [if_neg hp]
        exact LeadStrips.done s (by revert hp; cases hbTok.isPrefixOf s <;> simp)
  exact hgen t.length t (Nat.le_refl _)

theorem leadStrips_unique {t u : List Char} (h : LeadStrips t u) :
    u = stripLeadingHb t := by
  induction h with
  | done s hs => rw [stripLeadingHb_no_tok s hs]
  | step s u hs _ ih => rw [stripLeadingHb_step s hs]; exact ih

theorem stripTrailingHbAux_congr :
    ∀ (f1 f2 : Nat) (t : List Char), t.length ≤ f1 → t.length ≤ f2 →
      stripTrailingHbAux f1 t = stripTrailingHbAux f2 t := by
  intro f1
  induction f1 with
  | zero =>
    intro f2 t h1 _
    have ht : t = [] := List.eq_nil_of_length_eq_zero (by omega)
    subst ht
    cases f2 with
    | zero => rfl
    | succ n =>
      show stripTrailingHbAux 0 [] = stripTrailingHbAux (n + 1) []
      rw [show stripTrailingHbAux (n + 1) [] = [] from by
        unfold stripTrailingHbAux
        rw [if_neg (by decide)]]
      rfl
  | succ n ih =>
    intro f2 t h1 h2
    cases f2 with
    | zero =>
      have ht : t = [] := List.eq_nil_of_length_eq_zero (by omega)
      subst ht
      show stripTrailingHbAux (n + 1) [] = stripTrailingHbAux 0 []
      unfold stripTrailingHbAux
      rw [if_neg (by decide)]
    | succ m =>
      unfold stripTrailingHbAux
      by_cases hp : hbTok.isSuffixOf t
      · rw [if_pos hp, if_pos hp]
        have hlen : hbTok.length ≤ t.length := isSuffixOf_length_le hp
        have h14 : hbTok.length = 14 := by decide
        have hd := jsTrimEndList_length_le (t.take (t.length - hbTok.length))
        have ht := t.length_take (t.length - hbTok.length)
        refine ih m _ (by omega) (by omega)
      · rw [if_neg hp, if_neg hp]

theorem stripTrailingHb_no_tok (t : List Char) (h : hbTok.isSuffixOf t = false) :
    stripTrailingHb t = t := by
  unfold stripTrailingHb
  cases hl : t.length with
  | zero => rfl
  | succ n =>
    unfold stripTrailingHbAux
    rw [if_neg (by simp [h])]

theorem stripTrailingHb_step (t : List Char) (h : hbTok.isSuffixOf t = true) :
    stripTrailingHb t =
      stripTrailingHb (jsTrimEndList (t.take (t.length - hbTok.length))) := by
  have hlen : hbTok.length ≤ t.length := isSuffixOf_length_le h
  have h14 : hbTok.length = 14 := by decide
  have hfuel : stripTrailingHb t = stripTrailingHbAux t.length t := rfl
  obtain ⟨n, hl⟩ : ∃ n, t.length = n + 1 := ⟨t.length - 1, by omega⟩
  rw [hfuel, hl]
  show (if hbTok.isSuffixOf t then
      stripTrailingHbAux n (jsTrimEndList (t.take (t.length - hbTok.length)))
    else t) = _
  rw [if_pos h, hl]
  apply stripTrailingHbAux_congr
  · have := jsTrimEndList_length_le (t.take (n + 1 - hbTok.length))
    have := t.length_take (n + 1 - hbTok.length)
    omega
  · exact Nat.le_refl _

theorem stripTrailingHbAux_length_le :
    ∀ (fuel : Nat) (t : List Char),
      (stripTrailingHbAux fuel t).length ≤ t.length := by
  intro fuel
  induction fuel with
  | zero => intro t; exact Nat.le_refl _
  | succ n ih =>
    intro t
    unfold stripTrailingHbAux
    by_cases hp : hbTok.isSuffixOf t
    · rw [if_pos hp]
      have h1 := ih (jsTrimEndList (t.take (t.length - hbTok.length)))
      have h2 := jsTrimEndList_length_le (t.take (t.length - hbTok.length))
      have h3 := t.length_take (t.length - hbTok.length)
      omega
    · rw [if_neg hp]

theorem stripTrailingHb_length_le (t : List Char) :
    (stripTrailingHb t).length ≤ t.length :=
  stripTrailingHbAux_length_le _ _

theorem trailStrips_stripTrailingHb (t : List Char) :
    TrailStrips t (stripTrailingHb t) := by
  have hgen : ∀ (fuel : Nat) (s : List Char), s.length ≤ fuel →
      TrailStrips s (stripTrailingHbAux fuel s) := by
    intro fuel
    induction fuel with
    | zero =>
      intro s hs
      have : s = [] := List.eq_nil_of_length_eq_zero (by omega)
      subst this
      exact TrailStrips.done [] (by decide)
    | succ n ih =>
      intro s hs
      unfold stripTrailingHbAux
      by_cases hp : hbTok.isSuffixOf s
      · rw [if_pos hp]
        refine TrailStrips.step _ _ hp (ih _ ?_)
        have h14 : hbTok.length = 14 := by decide
        have := isSuffixOf_length_le hp
        have := jsTrimEndList_length_le (s.take (s.length - hbTok.length))
        have := s.length_take (s.length - hbTok.length)
        omega
      · rw [if_neg hp]
        exact TrailStrips.done s (by revert hp; cases hbTok.isSuffixOf s <;> simp)
  exact hgen t.length t (Nat.le_refl _)

theorem trailStrips_unique {t u : List Char} (h : TrailStrips t u) :
    u = stripTrailingHb t := by
  induction h with
  | done s hs => rw [stripTrailingHb_no_tok s hs]
  | step s u hs _ ih => rw [stripTrailingHb_step s hs]; exact ih

theorem containsSub_of_isPrefixOf {t pat : List Char}
    (h : pat.isPrefixOf t = true) : containsSub t pat = true := by
  cases t with
  | nil =>
    cases pat with
    | nil => rfl
    | cons c cs => simp [List.isPrefixOf] at h
  | cons c rest => simp [containsSub, h]

theorem containsSub_of_isSuffixOf {t pat : List Char}
    (h : pat.isSuffixOf t = true) : containsSub t pat = true := by
  induction t with
  | nil =>
    have hp : pat = [] := List.suffix_nil.mp (List.isSuffixOf_iff_suffix.mp h)
    subst hp
    rfl
  | cons c rest ih =>
    rcases List.suffix_cons_iff.mp (List.isSuffixOf_iff_suffix.mp h) with heq | hsuf
    · subst heq
      exact containsSub_of_isPrefixOf
        (List.isPrefixOf_iff_prefix.mpr (List.prefix_refl _))
    · simp [containsSub, ih (List.isSuffixOf_iff_suffix.mpr hsuf)]

theorem strip_ne_of_didStrip (T : List Char)
    (hds : (hbTok.isPrefixOf T || hbTok.isSuffixOf (stripLeadingHb T)) = true) :
    stripTrailingHb (stripLeadingHb T) ≠ T := by
  have h14 : hbTok.length = 14 := by decide
  rcases (Bool.or_eq_true _ _).mp hds with hp | hsuf
  · have h1 : (stripLeadingHb T).length < T.length := by
      rw [stripLeadingHb_step T hp]
      have := stripLeadingHb_length_le (jsTrimStartList (T.drop hbTok.length))
      have := jsTrimStartList_length_le (T.drop hbTok.length)
      have := T.length_drop hbTok.length
      have := isPrefixOf_length_le hp
      omega
    have h2 := stripTrailingHb_length_le (stripLeadingHb T)
    intro he
    have := congrArg List.length he
    omega
  · have h1 : (stripTrailingHb (stripLeadingHb T)).length <
        (stripLeadingHb T).length := by
      rw [stripTrailingHb_step _ hsuf]
      have := stripTrailingHb_length_le
        (jsTrimEndList ((stripLeadingHb T).take
          ((stripLeadingHb T).length - hbTok.length)))
      have := jsTrimEndList_length_le ((stripLeadingHb T).take
        ((stripLeadingHb T).length - hbTok.length))
      have := (stripLeadingHb T).length_take
        ((stripLeadingHb T).length - hbTok.length)
      have := isSuffixOf_length_le hsuf
      omega
    have h2 := stripLeadingHb_length_le T
    intro he
    have := congrArg List.length he
    omega

/-- C6 counterexample: `"a[HEARTBEAT_OK]b"` consists solely of the
heartbeat token plus two characters of surrounding text (well under the
default `ackMaxChars` of 30), yet `processHeartbeatResponse` delivers it
unchanged — the token is neither a leading nor a trailing edge, so the
claimed iff fails in both directions (not withheld, and the token is not
stripped). -/
theorem processHeartbeatResponse_interior_token_delivered :
    ("a[HEARTBEAT_OK]b" : String) = "a" ++ HEARTBEAT_TOKEN ++ "b" ∧
    ("a" : String).length + ("b" : String).length ≤ 30 ∧
    (processHeartbeatResponse "a[HEARTBEAT_OK]b" 30).shouldDeliver = true ∧
    (processHeartbeatResponse "a[HEARTBEAT_OK]b" 30).text = "a[HEARTBEAT_OK]b" :=
  ⟨by decide, by decide, rfl, rfl⟩

theorem processHeartbeatResponse_characterization (r : String) (ack : Nat) :
    (jsTrimList r.data = [] ∧ processHeartbeatResponse r ack = ⟨"", false⟩) ∨
    (jsTrimList r.data ≠ [] ∧
      (hbTok.isPrefixOf (jsTrimList r.data) ||
        hbTok.isSuffixOf (stripLeadingHb (jsTrimList r.data))) = false ∧
      processHeartbeatResponse r ack = ⟨⟨jsTrimList r.data⟩, true⟩) ∨
    (jsTrimList r.data ≠ [] ∧
      (hbTok.isPrefixOf (jsTrimList r.data) ||
        hbTok.isSuffixOf (stripLeadingHb (jsTrimList r.data))) = true ∧
      (((stripTrailingHb (stripLeadingHb (jsTrimList r.data))).length ≤ ack ∧
        processHeartbeatResponse r ack = ⟨"", false⟩) ∨
       (¬ (stripTrailingHb (stripLeadingHb (jsTrimList r.data))).length ≤ ack ∧
        processHeartbeatResponse r ack =
          ⟨⟨stripTrailingHb (stripLeadingHb (jsTrimList r.data))⟩, true⟩))) := by
  simp only [processHeartbeatResponse]
  split_ifs with h1 h2 h3 h4
  · exact Or.inl ⟨h1, rfl⟩
  · refine Or.inr (Or.inl ⟨h1, ?_, rfl⟩)
    have hcf : containsSub (jsTrimList r.data) hbTok = false := by
      revert h2
      cases containsSub (jsTrimList r.data) hbTok <;> simp
    have hp : hbTok.isPrefixOf (jsTrimList r.data) = false := by
      by_contra hq
      have hq' : hbTok.isPrefixOf (jsTrimList r.data) = true := by
        revert hq; cases hbTok.isPrefixOf (jsTrimList r.data) <;> simp
      rw [containsSub_of_isPrefixOf hq'] at hcf
      cases hcf
    have hs : hbTok.isSuffixOf (stripLeadingHb (jsTrimList r.data)) = false := by
      rw [stripLeadingHb_no_tok _ hp]
      by_contra hq
      have hq' : hbTok.isSuffixOf (jsTrimList r.data) = true := by
        revert hq; cases hbTok.isSuffixOf (jsTrimList r.data) <;> simp
      rw [containsSub_of_isSuffixOf hq'] at hcf
      cases hcf
    rw [hp, hs]
    rfl
  · refine Or.inr (Or.inl ⟨h1, ?_, rfl⟩)
    revert h3
    cases hbTok.isPrefixOf (jsTrimList r.data) ||
      hbTok.isSuffixOf (stripLeadingHb (jsTrimList r.data)) <;> simp
  · refine Or.inr (Or.inr ⟨h1, ?_, Or.inl ⟨?_, rfl⟩⟩)
    · revert h3
      cases hbTok.isPrefixOf (jsTrimList r.data) ||
        hbTok.isSuffixOf (stripLeadingHb (jsTrimList r.data)) <;> simp
    · have h4' : stripTrailingHb (stripLeadingHb (jsTrimList r.data)) = [] ∨
          (stripTrailingHb (stripLeadingHb (jsTrimList r.data))).length ≤ ack := by
        simpa using h4
      rcases h4' with he | hle
      · rw [he]
        exact Nat.zero_le _
      · exact hle
  · refine Or.inr (Or.inr ⟨h1, ?_, Or.inr ⟨?_, rfl⟩⟩)
    · revert h3
      cases hbTok.isPrefixOf (jsTrimList r.data) ||
        hbTok.isSuffixOf (stripLeadingHb (jsTrimList r.data)) <;> simp
    · intro hle
      exact h4 (by simp [hle])

/-- C6 amended: the heartbeat response is withheld iff the trimmed
response is blank, or a heartbeat token stands at its leading or trailing
edge and repeatedly stripping such edge tokens (with their surrounding
whitespace) changes the text and leaves at most `ackMaxChars` characters;
any delivered response carries exactly the edge-stripped text (tokens not
at an edge are left in place and do not cause suppression). -/
theorem processHeartbeatResponse_withhold_iff (r : String) (ack : Nat) :
    ((processHeartbeatResponse r ack).shouldDeliver = false ↔
      heartbeatSuppressed r ack) ∧
    (∀ u v, LeadStrips (jsTrimList r.data) u → TrailStrips u v →
      (processHeartbeatResponse r ack).shouldDeliver = true →
      (processHeartbeatResponse r ack).text = ⟨v⟩) := by
  have hL := leadStrips_stripLeadingHb (jsTrimList r.data)
  have hTr := trailStrips_stripTrailingHb (stripLeadingHb (jsTrimList r.data))
  rcases processHeartbeatResponse_characterization r ack with
    ⟨he, hres⟩ | ⟨hne, hds, hres⟩ | ⟨hne, hds, hsub⟩
  · refine ⟨?_, ?_⟩
    · rw [hres]
      simp only [heartbeatSuppressed]
      exact ⟨fun _ => Or.inl he, fun _ => trivial⟩
    · intro u v _ _ hdel
      rw [hres] at hdel
      exact absurd hdel (by simp)
  · have hparts : hbTok.isPrefixOf (jsTrimList r.data) = false ∧
        hbTok.isSuffixOf (stripLeadingHb (jsTrimList r.data)) = false := by
      simpa using hds
    have hno : stripLeadingHb (jsTrimList r.data) = jsTrimList r.data :=
      stripLeadingHb_no_tok _ hparts.1
    have hnt : stripTrailingHb (jsTrimList r.data) = jsTrimList r.data := by
      apply stripTrailingHb_no_tok
      rw [← hno]
      exact hparts.2
    refine ⟨?_, ?_⟩
    · rw [hres]
      simp only [heartbeatSuppressed]
      constructor
      · intro hdel
        exact absurd hdel (by simp)
      · intro habs
        exfalso
        rcases habs with he | ⟨u, v, hu, hv, hne2, _⟩
        · exact hne he
        · have hu' := leadStrips_unique hu
          have hv' := trailStrips_unique hv
          rw [hu', hno] at hv'
          exact hne2 (by rw [hv', hnt])
    · intro u v hu hv _
      rw [hres]
      have hu' := leadStrips_unique hu
      have hv' := trailStrips_unique hv
      rw [hu', hno] at hv'
      rw [hv', hnt]
  · have hVne := strip_ne_of_didStrip _ hds
    rcases hsub with ⟨hlen, hres⟩ | ⟨hlen, hres⟩
    · refine ⟨?_, ?_⟩
      · rw [hres]
        simp only [heartbeatSuppressed]
        exact ⟨fun _ => Or.inr ⟨_, _, hL, hTr, hVne, hlen⟩, fun _ => trivial⟩
      · intro u v hu hv hdel
        rw [hres] at hdel
        exact absurd hdel (by simp)
    · refine ⟨?_, ?_⟩
      · rw [hres]
        simp only [heartbeatSuppressed]
        constructor
        · intro hdel
          exact absurd hdel (by simp)
        · intro habs
          exfalso
          rcases habs with he | ⟨u, v, hu, hv, _, hlen2⟩
          · exact hne he
          · have hu' := leadStrips_unique hu
            have hv' := trailStrips_unique hv
            rw [hu'] at hv'
            exact hlen (hv' ▸ hlen2)
      · intro u v hu hv _
        rw [hres]
        have hu' := leadStrips_unique hu
        have hv' := trailStrips_unique hv
        rw [hu'] at hv'
        rw [hv']

theorem processHeartbeatResponse_withhold_iff_witness :
    (processHeartbeatResponse "[HEARTBEAT_OK] ok" 30).shouldDeliver = false ∧
    heartbeatSuppressed "[HEARTBEAT_OK] ok" 30 :=
  ⟨rfl, ((processHeartbeatResponse_withhold_iff "[HEARTBEAT_OK] ok" 30).1).mp rfl⟩

/-- C7 counterexample: in `"/think banana draft it"` the argument word
`banana` is not a recognized level, yet the directive (with its argument)
IS stripped from the cleaned text: extraction returns level `none` but
`cleaned = "draft it"` with no `/think` left in it, and `hasDirective` is
true. -/
theorem extractThinkDirective_unknown_arg_stripped :
    extractThinkDirective "/think banana draft it" =
      ⟨"draft it", none, some "banana", true⟩ ∧
    containsSub "draft it".data "/think".data = false ∧
    (extractAllDirectives "/think banana draft it").cleanedMessage =
      "draft it" ∧
    (extractAllDirectives "/think banana draft it").thinkLevel = none :=
  ⟨rfl, by decide, rfl, rfl⟩

/-- C7 amended: whenever the `/think` (or `/thinking`, `/t`) or the
`/verbose` (or `/v`) pattern matches but its argument word does not
normalize to a recognized level, extraction returns level undefined and
hasDirective true, and the matched directive together with its argument
word is stripped from the cleaned text exactly as for recognized
arguments (the regex match does not depend on the argument being
recognized); the combined extraction then reports no think level
(respectively no verbose level). -/
theorem extractThinkDirective_unknown_arg_behavior
    (body : String) (whole arg : List Char) (hb : body ≠ "") :
    (scanDirective thinkKeywords thinkLookahead body.data true =
        some (whole, arg) →
      normalizeThinkLevel (some ⟨arg⟩) = none →
      extractThinkDirective body =
        ⟨⟨jsTrimList (collapseWs (removeFirstOccurrence body.data whole))⟩,
          none, some ⟨arg⟩, true⟩ ∧
      (extractAllDirectives body).thinkLevel = none) ∧
    (scanDirective verboseKeywords verboseLookahead body.data true =
        some (whole, arg) →
      normalizeVerboseLevel (some ⟨arg⟩) = none →
      extractVerboseDirective body =
        ⟨⟨jsTrimList (collapseWs (removeFirstOccurrence body.data whole))⟩,
          none, some ⟨arg⟩, true⟩ ∧
      (∀ m : String,
        (if (extractThinkDirective m).hasDirective = true
          then (extractThinkDirective m).cleaned else m) = body →
        (extractAllDirectives m).verboseLevel = none)) := by
  constructor
  · intro hscan hlvl
    have h1 : extractThinkDirective body =
        ⟨⟨jsTrimList (collapseWs (removeFirstOccurrence body.data whole))⟩,
          normalizeThinkLevel (some ⟨arg⟩), some ⟨arg⟩, true⟩ := by
      unfold extractThinkDirective
      rw [if_neg hb, hscan]
    rw [hlvl] at h1
    refine ⟨h1, ?_⟩
    simp only [extractAllDirectives, h1]
  · intro hscan hlvl
    have h2 : extractVerboseDirective body =
        ⟨⟨jsTrimList (collapseWs (removeFirstOccurrence body.data whole))⟩,
          normalizeVerboseLevel (some ⟨arg⟩), some ⟨arg⟩, true⟩ := by
      unfold extractVerboseDirective
      rw [if_neg hb, hscan]
    rw [hlvl] at h2
    refine ⟨h2, ?_⟩
    intro m hm
    have hver : (extractAllDirectives m).verboseLevel =
        (extractVerboseDirective (if (extractThinkDirective m).hasDirective = true
          then (extractThinkDirective m).cleaned else m)).level := rfl
    rw [hver, hm, h2]

theorem extractThinkDirective_unknown_arg_behavior_witness :
    (("/think banana draft it" : String) ≠ "" ∧
    scanDirective thinkKeywords thinkLookahead
        "/think banana draft it".data true =
      some ("/think banana".data, "banana".data) ∧
    normalizeThinkLevel (some "banana") = none ∧
    (extractThinkDirective "/think banana draft it" =
      ⟨⟨jsTrimList (collapseWs (removeFirstOccurrence
          "/think banana draft it".data "/think banana".data))⟩,
        none, some "banana", true⟩ ∧
    (extractAllDirectives "/think banana draft it").thinkLevel = none)) ∧
    (("/v banana say hi" : String) ≠ "" ∧
    scanDirective verboseKeywords verboseLookahead
        "/v banana say hi".data true =
      some ("/v banana".data, "banana".data) ∧
    normalizeVerboseLevel (some "banana") = none ∧
    (if (extractThinkDirective "/v banana say hi").hasDirective = true
      then (extractThinkDirective "/v banana say hi").cleaned
      else "/v banana say hi") = "/v banana say hi" ∧
    (extractVerboseDirective "/v banana say hi" =
      ⟨⟨jsTrimList (collapseWs (removeFirstOccurrence
          "/v banana say hi".data "/v banana".data))⟩,
        none, some "banana", true⟩ ∧
    (extractAllDirectives "/v banana say hi").verboseLevel = none)) :=
  ⟨⟨by decide, by decide, rfl,
    (extractThinkDirective_unknown_arg_behavior "/think banana draft it"
      "/think banana".data "banana".data (by decide)).1 (by decide) rfl⟩,
   ⟨by decide, by decide, rfl, by decide,
    (fun h => ⟨h.1, h.2 "/v banana say hi" (by decide)⟩)
      ((extractThinkDirective_unknown_arg_behavior "/v banana say hi"
        "/v banana".data "banana".data (by decide)).2 (by decide) rfl)⟩⟩
